import Mathlib

/-!
Verification of the gliff-py client (src/gliff.py) against its
natural-language specification.

The development shallowly embeds the Python module's data model and
operations:

* JSON-compatible values (the decoded content of remote items and of the
  project's gallery document) are the inductive type `JVal`; Python `str`
  is modelled as `List Char` (Unicode scalar values, as in CPython minus
  lone surrogates), Python `bytes` as `List Nat` (each entry < 256), JSON
  numbers as `Int` (the client only ever stores integral JSON numbers;
  IEEE floats are outside the model).
* `json.dumps(v, separators=(",", ":"))` (with its default
  `ensure_ascii=True`) is `dumpVal`, and `json.loads` is `jsonLoads`, a
  fuel-based recursive-descent parser of the JSON grammar restricted to
  integral numbers.
* `str.encode()` / `bytes.decode()` (UTF-8) are `utf8Encode` / `utf8Decode`.
* The Etebase remote store is `StoreState`: the project document's byte
  content plus the uid-indexed item list.  The embedded operations assume a
  logged-in session whose `Project` cache already targets the store (the
  claims under study are single-project, single-session scenarios; the
  cache-refresh logic itself is modelled separately as `fetch_project_data`).

All definitions are written to be kernel-reducible (structural or
fuel-structural recursion only), so concrete runs evaluate by `rfl`/`decide`.
-/

/-- Python `str` modelled as a list of Unicode scalar values. -/
abbrev LStr := List Char

/-- A JSON-compatible Python value: `None`, `bool`, `int`, `str`, `list`,
`dict` (insertion-ordered, as in CPython).  Floats are outside the model. -/
inductive JVal where
  | vNull : JVal
  | vBool (b : Bool) : JVal
  | vInt (n : Int) : JVal
  | vStr (s : LStr) : JVal
  | vArr (items : List JVal) : JVal
  | vObj (members : List (LStr × JVal)) : JVal

/-! ## Decimal rendering of integers (Python `repr` of `int`, as emitted by
`json.dumps`): optional minus sign, then base-10 digits without leading
zeros.  Fuel-structural so that it reduces in the kernel. -/

/-- The character for one decimal digit. -/
def decDigitChar (d : Nat) : Char :=
  match d with
  | 0 => '0' | 1 => '1' | 2 => '2' | 3 => '3' | 4 => '4'
  | 5 => '5' | 6 => '6' | 7 => '7' | 8 => '8' | _ => '9'

/-- Decimal digits of `n` (most significant first) prepended to `acc`;
`fuel` only needs to exceed `n`. -/
def natDecAux : Nat → Nat → LStr → LStr
  | 0, _, acc => acc
  | fuel + 1, n, acc =>
    if n < 10 then decDigitChar n :: acc
    else natDecAux fuel (n / 10) (decDigitChar (n % 10) :: acc)

/-- Decimal digits of a natural number (`"0"` for zero, no leading zeros). -/
def natDec (n : Nat) : LStr := natDecAux (n + 1) n []

/-- Decimal rendering of an integer. -/
def intDec (i : Int) : LStr :=
  if i < 0 then '-' :: natDec i.natAbs else natDec i.natAbs

/-! ## String escaping, following CPython's
`json.encoder.py_encode_basestring_ascii` (the semantics of `json.dumps`
with its default `ensure_ascii=True`): printable ASCII other than the
quote and the backslash is copied; the quote, the backslash and the five
C0 controls with short escapes use them; every other scalar below
`0x10000` becomes `\uXXXX` (lowercase hex); astral scalars become a
UTF-16 surrogate pair of `\u` escapes. -/

/-- Lowercase hexadecimal digit character. -/
def hexDigitChar (d : Nat) : Char :=
  match d with
  | 0 => '0' | 1 => '1' | 2 => '2' | 3 => '3' | 4 => '4'
  | 5 => '5' | 6 => '6' | 7 => '7' | 8 => '8' | 9 => '9'
  | 10 => 'a' | 11 => 'b' | 12 => 'c' | 13 => 'd' | 14 => 'e' | _ => 'f'

/-- The four hex digits of `n < 0x10000`, most significant first. -/
def hex4 (n : Nat) : LStr :=
  [hexDigitChar (n / 4096 % 16), hexDigitChar (n / 256 % 16),
   hexDigitChar (n / 16 % 16), hexDigitChar (n % 16)]

/-- A `\uXXXX` escape. -/
def uEsc (n : Nat) : LStr := '\\' :: 'u' :: hex4 n

/-- Escape one character as `json.dumps` (ASCII mode) does. -/
def pyEscChar (c : Char) : LStr :=
  if c = '\"' then ['\\', '\"']
  else if c = '\\' then ['\\', '\\']
  else if c = '\x08' then ['\\', 'b']
  else if c = '\x0c' then ['\\', 'f']
  else if c = '\n' then ['\\', 'n']
  else if c = '\r' then ['\\', 'r']
  else if c = '\t' then ['\\', 't']
  else if 0x20 ≤ c.toNat ∧ c.toNat ≤ 0x7e then [c]
  else if c.toNat < 0x10000 then uEsc c.toNat
  else
    uEsc (0xd800 + (c.toNat - 0x10000) / 0x400) ++
      uEsc (0xdc00 + (c.toNat - 0x10000) % 0x400)

/-- A JSON string literal: quote, escaped characters, quote. -/
def dumpStr (s : LStr) : LStr := '\"' :: (s.flatMap pyEscChar ++ ['\"'])

/-! ## `json.dumps(v, separators=(",", ":"))`: the compact rendering used by
`_encode_content` — no whitespace, `,` between items, `:` after keys. -/

mutual
/-- Compact JSON rendering of a value (`json.dumps` with the module's
separators). -/
def dumpVal : JVal → LStr
  | .vNull => ['n', 'u', 'l', 'l']
  | .vBool true => ['t', 'r', 'u', 'e']
  | .vBool false => ['f', 'a', 'l', 's', 'e']
  | .vInt n => intDec n
  | .vStr s => dumpStr s
  | .vArr items => '[' :: (dumpItems items ++ [']'])
  | .vObj ms => '\x7b' :: (dumpMembers ms ++ ['\x7d'])
/-- The comma-separated item list of an array. -/
def dumpItems : List JVal → LStr
  | [] => []
  | [x] => dumpVal x
  | x :: y :: tl => dumpVal x ++ ',' :: dumpItems (y :: tl)
/-- The comma-separated `"key":value` list of an object. -/
def dumpMembers : List (LStr × JVal) → LStr
  | [] => []
  | [(k, v)] => dumpStr k ++ ':' :: dumpVal v
  | (k, v) :: m :: tl => dumpStr k ++ ':' :: dumpVal v ++ ',' :: dumpMembers (m :: tl)
end

/-! ## `json.loads`: a recursive-descent parser for the JSON grammar
(whitespace-tolerant, strict strings, no trailing data), restricted to
integral numbers: a numeric token followed by `.`, `e` or `E` (a float,
outside the model) makes the parse fail instead of mis-reading it.
Lone UTF-16 surrogates in `\u` escapes (which CPython would keep as
unpaired surrogate code points, unrepresentable in `Char`) also fail. -/

/-- JSON insignificant whitespace (space, tab, line feed, carriage return). -/
def isJsonWs (c : Char) : Bool :=
  c.toNat = 32 || c.toNat = 9 || c.toNat = 10 || c.toNat = 13

/-- Skip insignificant whitespace. -/
def dropWs (cs : LStr) : LStr := cs.dropWhile isJsonWs

/-- Decimal digit test. -/
def isDecDigit (c : Char) : Bool := 48 ≤ c.toNat && c.toNat ≤ 57

/-- Value of a decimal digit character. -/
def decDigitVal (c : Char) : Nat := c.toNat - 48

/-- Numeric value of a digit run (most significant first). -/
def decRunVal (ds : LStr) : Nat := ds.foldl (fun a c => a * 10 + decDigitVal c) 0

/-- Value of one hexadecimal digit character (both cases), if any. -/
def hexDigitVal (c : Char) : Option Nat :=
  if 48 ≤ c.toNat ∧ c.toNat ≤ 57 then some (c.toNat - 48)
  else if 97 ≤ c.toNat ∧ c.toNat ≤ 102 then some (c.toNat - 87)
  else if 65 ≤ c.toNat ∧ c.toNat ≤ 70 then some (c.toNat - 55)
  else none

/-- Value of four hex digit characters, if all are hex digits. -/
def hex4Val (a b c d : Char) : Option Nat :=
  match hexDigitVal a, hexDigitVal b, hexDigitVal c, hexDigitVal d with
  | some x, some y, some z, some w => some (x * 4096 + y * 256 + z * 16 + w)
  | _, _, _, _ => none

/-- Decode one short escape character (after a backslash). -/
def escDecode (c : Char) : Option Char :=
  if c = '\"' then some '\"'
  else if c = '\\' then some '\\'
  else if c = '/' then some '/'
  else if c = 'b' then some '\x08'
  else if c = 'f' then some '\x0c'
  else if c = 'n' then some '\n'
  else if c = 'r' then some '\r'
  else if c = 't' then some '\t'
  else none

/-- Read four hex digits (the `XXXX` of a `\uXXXX` escape). -/
def readU4 : LStr → Option (Nat × LStr)
  | a :: b :: d :: e :: rest =>
    (match hex4Val a b d e with
     | some n => some (n, rest)
     | none => none)
  | _ => none

/-- Complete a high surrogate `n`: the input must continue with a `\uXXXX`
low surrogate, which is combined into one astral scalar. -/
def combineSurrogate (n : Nat) : LStr → Option (Char × LStr)
  | s1 :: s2 :: t =>
    if s1 = '\\' ∧ s2 = 'u' then
      match readU4 t with
      | some (m, rest3) =>
        if 0xdc00 ≤ m ∧ m < 0xe000 then
          some (Char.ofNat (0x10000 + (n - 0xd800) * 0x400 + (m - 0xdc00)), rest3)
        else none
      | none => none
    else none
  | _ => none

/-- Read one escape sequence after a backslash: a short escape, a `\uXXXX`
escape, or a surrogate pair of `\u` escapes (CPython's `strict` scanner;
a high surrogate must be completed by a low one, see the module comment
above on lone surrogates). -/
def readEscChar : LStr → Option (Char × LStr)
  | [] => none
  | e :: rest =>
    if e = 'u' then
      match readU4 rest with
      | some (n, rest2) =>
        if 0xd800 ≤ n ∧ n < 0xdc00 then combineSurrogate n rest2
        else some (Char.ofNat n, rest2)
      | none => none
    else
      match escDecode e with
      | some ch => some (ch, rest)
      | none => none

/-- Parse the body of a JSON string after the opening quote, returning the
decoded characters and the input after the closing quote.  Raw control
characters are rejected (CPython's `strict=True`).  `fuel` is a totality
device: call sites pass the input length plus one, and every step consumes
at least one character, so the fuel never runs out. -/
def parseStrBody : Nat → LStr → Option (LStr × LStr)
  | 0, _ => none
  | _, [] => none
  | fuel + 1, c :: rest =>
    if c = '\"' then some ([], rest)
    else if c = '\\' then
      match readEscChar rest with
      | some (ch, rest2) => (parseStrBody fuel rest2).map (fun p => (ch :: p.1, p.2))
      | none => none
    else if c.toNat < 0x20 then none
    else (parseStrBody fuel rest).map (fun p => (c :: p.1, p.2))

/-- Parse an unsigned JSON integer token: `0`, or a nonzero digit followed
by a greedy digit run (JSON forbids leading zeros). -/
def parseNatTok : LStr → Option (Nat × LStr)
  | [] => none
  | c :: rest =>
    if c = '0' then some (0, rest)
    else if isDecDigit c then
      some (decRunVal ((c :: rest).takeWhile isDecDigit), (c :: rest).dropWhile isDecDigit)
    else none

/-- Parse an optionally signed JSON integer token. -/
def parseIntTok : LStr → Option (Int × LStr)
  | [] => none
  | c :: t =>
    if c = '-' then (parseNatTok t).map (fun p => (-(p.1 : Int), p.2))
    else (parseNatTok (c :: t)).map (fun p => ((p.1 : Int), p.2))

/-- Parse a JSON number restricted to integers: fail (rather than
mis-parse) if a fraction or exponent follows. -/
def parseNum (cs : LStr) : Option (Int × LStr) :=
  match parseIntTok cs with
  | none => none
  | some (n, rest) =>
    match rest with
    | c :: _ => if c = '.' ∨ c = 'e' ∨ c = 'E' then none else some (n, rest)
    | [] => some (n, [])

mutual
/-- Parse one JSON value (no leading whitespace); `fuel` bounds the
recursion and only needs to exceed the node count of the value. -/
def parseVal : Nat → LStr → Option (JVal × LStr)
  | 0, _ => none
  | fuel + 1, cs =>
    match cs with
    | [] => none
    | c :: r =>
      if c = 'n' then
        (match r with
         | 'u' :: 'l' :: 'l' :: r2 => some (.vNull, r2)
         | _ => none)
      else if c = 't' then
        (match r with
         | 'r' :: 'u' :: 'e' :: r2 => some (.vBool true, r2)
         | _ => none)
      else if c = 'f' then
        (match r with
         | 'a' :: 'l' :: 's' :: 'e' :: r2 => some (.vBool false, r2)
         | _ => none)
      else if c = '\"' then (parseStrBody (r.length + 1) r).map (fun p => (.vStr p.1, p.2))
      else if c = '[' then
        (if (dropWs r).head? = some ']' then some (.vArr [], (dropWs r).tail)
         else (parseArrItems fuel (dropWs r)).map (fun p => (.vArr p.1, p.2)))
      else if c = '\x7b' then
        (if (dropWs r).head? = some '\x7d' then some (.vObj [], (dropWs r).tail)
         else (parseObjMembers fuel (dropWs r)).map (fun p => (.vObj p.1, p.2)))
      else (parseNum (c :: r)).map (fun p => (.vInt p.1, p.2))
/-- Parse the one-or-more comma-separated items of a nonempty array,
consuming the closing bracket. -/
def parseArrItems : Nat → LStr → Option (List JVal × LStr)
  | 0, _ => none
  | fuel + 1, cs =>
    match parseVal fuel cs with
    | none => none
    | some (v, r) =>
      if (dropWs r).head? = some ',' then
        (parseArrItems fuel (dropWs (dropWs r).tail)).map (fun p => (v :: p.1, p.2))
      else if (dropWs r).head? = some ']' then some ([v], (dropWs r).tail)
      else none
/-- Parse the one-or-more comma-separated members of a nonempty object,
consuming the closing brace. -/
def parseObjMembers : Nat → LStr → Option (List (LStr × JVal) × LStr)
  | 0, _ => none
  | fuel + 1, cs =>
    match cs with
    | '\"' :: r =>
      (match parseStrBody (r.length + 1) r with
       | none => none
       | some (k, r1) =>
         if (dropWs r1).head? = some ':' then
           (match parseVal fuel (dropWs (dropWs r1).tail) with
            | none => none
            | some (v, r3) =>
              if (dropWs r3).head? = some ',' then
                (parseObjMembers fuel (dropWs (dropWs r3).tail)).map
                  (fun p => ((k, v) :: p.1, p.2))
              else if (dropWs r3).head? = some '\x7d' then some ([(k, v)], (dropWs r3).tail)
              else none)
         else none)
    | _ => none
end

/-- Parse a complete JSON document: leading and trailing whitespace
allowed, nothing else may remain (`json.loads` raising `JSONDecodeError`
is `none`). -/
def jsonLoads (cs : LStr) : Option JVal :=
  match parseVal (cs.length + 1) (dropWs cs) with
  | some (v, rest) => if dropWs rest = [] then some v else none
  | none => none

/-! ## Round-trip correctness of the content codec

The lemmas below establish `jsonLoads (dumpVal v) = some v`, the JSON half
of the `_decode_content` / `_encode_content` round trip (§ Content Codec).
They follow the usual structure of verified-parser developments: digit and
hex-digit inverses first, then token inverses, then a mutual induction
over the value grammar. -/

theorem charToNat_lt_uni (c : Char) : c.toNat < 1114112 := by
  rcases c.valid with h | h
  · have h2 : c.val.toNat < 55296 := h
    show c.val.toNat < 1114112
    omega
  · exact h.2

theorem charToNat_not_surr (c : Char) : c.toNat < 55296 ∨ 57343 < c.toNat := by
  rcases c.valid with h | h
  · exact Or.inl h
  · exact Or.inr h.1

theorem charOfNat_toNat (n : Nat) (h : n.isValidChar) : (Char.ofNat n).toNat = n := by
  unfold Char.ofNat
  rw [dif_pos h]
  rfl

theorem char_toNat_inj (c d : Char) (h : c.toNat = d.toNat) : c = d := by
  apply Char.ext
  apply UInt32.toNat.inj h

theorem char_ne_of_toNat_ne (c d : Char) (h : c.toNat ≠ d.toNat) : c ≠ d := by
  intro he
  exact h (congrArg Char.toNat he)

/-- Bounds form of a decimal-digit hypothesis. -/
theorem isDecDigit_bounds (c : Char) (h : isDecDigit c = true) :
    48 ≤ c.toNat ∧ c.toNat ≤ 57 := by
  simpa [isDecDigit] using h

/-- A decimal digit is not whitespace and is none of the JSON structural or
number-extending characters the round-trip argument must exclude. -/
theorem isDecDigit_notSpecial (c : Char) (h : isDecDigit c = true) :
    isJsonWs c = false ∧ c ≠ ']' ∧ c ≠ '\x7d' ∧ c ≠ ',' ∧ c ≠ '-' ∧ c ≠ '.' ∧
      c ≠ 'e' ∧ c ≠ 'E' ∧ c ≠ 'n' ∧ c ≠ 't' ∧ c ≠ 'f' ∧ c ≠ '\"' ∧ c ≠ '[' ∧ c ≠ '\x7b' := by
  obtain ⟨h1, h2⟩ := isDecDigit_bounds c h
  refine ⟨by simp [isJsonWs]; omega, ?_⟩
  repeat' constructor
  all_goals (apply char_ne_of_toNat_ne; simp; omega)

theorem decDigitChar_val (d : Nat) (h : d < 10) :
    isDecDigit (decDigitChar d) = true ∧ decDigitVal (decDigitChar d) = d := by
  interval_cases d <;> exact ⟨by decide, by decide⟩

/-! Decimal rendering: accumulator, fuel-irrelevance and unfolding lemmas,
then the digit-run inverse. -/

theorem natDecAux_acc (fuel : Nat) : ∀ n acc, natDecAux fuel n acc = natDecAux fuel n [] ++ acc := by
  induction fuel with
  | zero => intro n acc; simp [natDecAux]
  | succ f ih =>
    intro n acc
    by_cases h : n < 10
    · simp [natDecAux, h]
    · simp only [natDecAux, if_neg h]
      rw [ih (n / 10), ih (n / 10) (decDigitChar (n % 10) :: [])]
      simp

theorem natDecAux_fuel (f g : Nat) : ∀ n, n < f → n < g →
    natDecAux f n [] = natDecAux g n [] := by
  induction f generalizing g with
  | zero => intro n h; omega
  | succ f ih =>
    intro n hf hg
    cases g with
    | zero => omega
    | succ g =>
      by_cases h : n < 10
      · simp [natDecAux, h]
      · simp only [natDecAux, if_neg h]
        rw [natDecAux_acc f, natDecAux_acc g, ih g (n / 10) (by omega) (by omega)]

/-- One-step unfolding of `natDec`, in most-significant-digits-first form. -/
theorem natDec_unfold (n : Nat) :
    natDec n = if n < 10 then [decDigitChar n] else natDec (n / 10) ++ [decDigitChar (n % 10)] := by
  by_cases h : n < 10
  · simp [natDec, natDecAux, h]
  · rw [if_neg h]
    show natDecAux (n + 1) n [] = _
    simp only [natDecAux, if_neg h]
    rw [natDecAux_acc n (n / 10), natDecAux_fuel n (n / 10 + 1) (n / 10) (by omega) (by omega)]
    rfl

theorem natDec_all_digits (n : Nat) : ∀ c ∈ natDec n, isDecDigit c = true := by
  induction n using Nat.strong_induction_on with
  | _ n ih =>
    rw [natDec_unfold]
    intro c hc
    by_cases h : n < 10
    · simp [h] at hc
      subst hc
      exact (decDigitChar_val n h).1
    · simp only [if_neg h, List.mem_append, List.mem_singleton] at hc
      rcases hc with hc | hc
      · exact ih (n / 10) (by omega) c hc
      · subst hc
        exact (decDigitChar_val (n % 10) (by omega)).1

/-- The head of `natDec n`: a digit, nonzero when `n` is. -/
theorem natDec_head (n : Nat) :
    ∃ c t, natDec n = c :: t ∧ isDecDigit c = true ∧ (1 ≤ n → c ≠ '0') := by
  induction n using Nat.strong_induction_on with
  | _ n ih =>
    rw [natDec_unfold]
    by_cases h : n < 10
    · refine ⟨decDigitChar n, [], by simp [h], (decDigitChar_val n h).1, ?_⟩
      intro h1
      apply char_ne_of_toNat_ne
      interval_cases n <;> decide
    · obtain ⟨c, t, hct, hd, hz⟩ := ih (n / 10) (by omega)
      exact ⟨c, t ++ [decDigitChar (n % 10)], by simp [h, hct], hd, fun _ => hz (by omega)⟩

theorem decRunVal_natDec (n : Nat) : decRunVal (natDec n) = n := by
  induction n using Nat.strong_induction_on with
  | _ n ih =>
    rw [natDec_unfold]
    by_cases h : n < 10
    · simp [h, decRunVal, (decDigitChar_val n h).2]
    · simp only [if_neg h, decRunVal, List.foldl_append, List.foldl_cons, List.foldl_nil]
      have hv := ih (n / 10) (by omega)
      simp only [decRunVal] at hv
      rw [hv, (decDigitChar_val (n % 10) (by omega)).2]
      omega

/-! Token inverses: digit runs, integer tokens, hex quadruples, string
bodies. -/

/-- A remainder that cannot extend a rendered number token: empty, or headed
by something that is neither a digit nor a fraction/exponent opener.  All
delimiters the compact renderer emits after a number qualify. -/
def numStopB : LStr → Bool
  | [] => true
  | c :: _ => !(isDecDigit c || c = '.' || c = 'e' || c = 'E')

theorem takeWhile_digits_append (ds : LStr) (rest : LStr)
    (hds : ∀ c ∈ ds, isDecDigit c = true)
    (hrest : ∀ c, rest.head? = some c → isDecDigit c = false) :
    (ds ++ rest).takeWhile isDecDigit = ds ∧ (ds ++ rest).dropWhile isDecDigit = rest := by
  induction ds with
  | nil =>
    simp only [List.nil_append, List.takeWhile, List.dropWhile]
    cases rest with
    | nil => simp
    | cons c t => simp [List.takeWhile_cons, List.dropWhile_cons, hrest c rfl]
  | cons c t ih =>
    have hc := hds c (by simp)
    have ht := ih (fun x hx => hds x (by simp [hx]))
    simp [List.takeWhile_cons, List.dropWhile_cons, hc, ht.1, ht.2]

theorem numStopB_head (rest : LStr) (h : numStopB rest = true) :
    ∀ c, rest.head? = some c → isDecDigit c = false ∧ c ≠ '.' ∧ c ≠ 'e' ∧ c ≠ 'E' := by
  intro c hc
  cases rest with
  | nil => simp at hc
  | cons d t =>
    simp only [List.head?] at hc
    injection hc with hc
    subst hc
    simp only [numStopB, Bool.not_eq_true', Bool.or_eq_false_iff] at h
    refine ⟨h.1.1.1, ?_, ?_, ?_⟩ <;> simp_all

theorem parseNatTok_natDec (n : Nat) (rest : LStr) (h : numStopB rest = true) :
    parseNatTok (natDec n ++ rest) = some (n, rest) := by
  obtain ⟨c, t, hct, hd, hz⟩ := natDec_head n
  by_cases h0 : n = 0
  · subst h0
    simp only [show natDec 0 = ['0'] from rfl, List.cons_append, List.nil_append]
    simp [parseNatTok]
  · have hcz : c ≠ '0' := hz (by omega)
    rw [hct]
    simp only [List.cons_append, parseNatTok, if_neg hcz, if_pos hd]
    have hta := takeWhile_digits_append (c :: t) rest
      (fun x hx => natDec_all_digits n x (hct ▸ hx))
      (fun x hx => (numStopB_head rest h x hx).1)
    rw [List.cons_append] at hta
    rw [hta.1, hta.2, ← hct, decRunVal_natDec]

theorem parseNum_intDec (i : Int) (rest : LStr) (h : numStopB rest = true) :
    parseNum (intDec i ++ rest) = some (i, rest) := by
  have hnum : parseIntTok (intDec i ++ rest) = some (i, rest) := by
    by_cases hneg : i < 0
    · simp only [intDec, if_pos hneg, List.cons_append, parseIntTok, eq_self_iff_true, if_true]
      rw [parseNatTok_natDec i.natAbs rest h]
      simp only [Option.map_some']
      have hi : (-(i.natAbs : Int)) = i := by omega
      rw [hi]
    · simp only [intDec, if_neg hneg]
      obtain ⟨c, t, hct, hd, _⟩ := natDec_head i.natAbs
      rw [hct, List.cons_append, parseIntTok,
        if_neg (isDecDigit_notSpecial c hd).2.2.2.2.1, ← List.cons_append, ← hct,
        parseNatTok_natDec i.natAbs rest h]
      simp only [Option.map_some']
      have hi : ((i.natAbs : Nat) : Int) = i := by omega
      rw [hi]
  rw [parseNum, hnum]
  cases rest with
  | nil => rfl
  | cons c t =>
    obtain ⟨_, h1, h2, h3⟩ := numStopB_head (c :: t) h c rfl
    simp [h1, h2, h3]

theorem hexDigitVal_hexDigitChar (d : Nat) (h : d < 16) :
    hexDigitVal (hexDigitChar d) = some d := by
  interval_cases d <;> decide

theorem hex4Val_hex4 (n : Nat) (h : n < 65536) :
    hex4Val (hexDigitChar (n / 4096 % 16)) (hexDigitChar (n / 256 % 16))
      (hexDigitChar (n / 16 % 16)) (hexDigitChar (n % 16)) = some n := by
  have h1 := hexDigitVal_hexDigitChar (n / 4096 % 16) (by omega)
  have h2 := hexDigitVal_hexDigitChar (n / 256 % 16) (by omega)
  have h3 := hexDigitVal_hexDigitChar (n / 16 % 16) (by omega)
  have h4 := hexDigitVal_hexDigitChar (n % 16) (by omega)
  simp only [hex4Val, h1, h2, h3, h4]
  congr 1
  omega

/-- Four rendered hex digits read back as their value. -/
theorem readU4_hex4 (n : Nat) (h : n < 65536) (rest : LStr) :
    readU4 (hex4 n ++ rest) = some (n, rest) := by
  simp only [hex4, List.cons_append, List.nil_append, readU4, hex4Val_hex4 n h]

/-- Completing a high surrogate against a rendered low-surrogate escape. -/
theorem combineSurrogate_uEsc (n m : Nat) (hm1 : 0xdc00 ≤ m) (hm2 : m < 0xe000)
    (rest : LStr) :
    combineSurrogate n (uEsc m ++ rest) =
      some (Char.ofNat (0x10000 + (n - 0xd800) * 0x400 + (m - 0xdc00)), rest) := by
  simp only [uEsc, List.cons_append, combineSurrogate,
    if_pos (show ('\\' = '\\' ∧ 'u' = 'u') from ⟨rfl, rfl⟩), readU4_hex4 m (by omega) rest,
    if_pos (And.intro hm1 hm2)]
  simp

/-- Definitional unfolding of `readEscChar` after a `u`. -/
theorem readEscChar_u (x : LStr) :
    readEscChar ('u' :: x) =
      (match readU4 x with
       | some (n, rest2) =>
         if 0xd800 ≤ n ∧ n < 0xdc00 then combineSurrogate n rest2
         else some (Char.ofNat n, rest2)
       | none => none) := rfl

/-- Reading a `u` escape against four rendered hex digits. -/
theorem readEscChar_uHex (n : Nat) (hn : n < 65536) (rest : LStr) :
    readEscChar ('u' :: (hex4 n ++ rest)) =
      if 0xd800 ≤ n ∧ n < 0xdc00 then combineSurrogate n rest
      else some (Char.ofNat n, rest) := by
  simp only [readEscChar_u, readU4_hex4 n hn rest]

/-- Reading the escape tail (after the backslash) of an escaped character
recovers that character. -/
theorem readEscChar_esc (c : Char) (rest : LStr) (tail : LStr)
    (h : pyEscChar c = '\\' :: tail) :
    readEscChar (tail ++ rest) = some (c, rest) := by
  by_cases h1 : c = '\"'
  · subst h1
    rw [show pyEscChar '\"' = ['\\', '\"'] from rfl] at h
    injection h with hh h
    subst h
    rfl
  by_cases h2 : c = '\\'
  · subst h2
    rw [show pyEscChar '\\' = ['\\', '\\'] from rfl] at h
    injection h with hh h
    subst h
    rfl
  by_cases h3 : c = '\x08'
  · subst h3
    rw [show pyEscChar '\x08' = ['\\', 'b'] from rfl] at h
    injection h with hh h
    subst h
    rfl
  by_cases h4 : c = '\x0c'
  · subst h4
    rw [show pyEscChar '\x0c' = ['\\', 'f'] from rfl] at h
    injection h with hh h
    subst h
    rfl
  by_cases h5 : c = '\n'
  · subst h5
    rw [show pyEscChar '\n' = ['\\', 'n'] from rfl] at h
    injection h with hh h
    subst h
    rfl
  by_cases h6 : c = '\r'
  · subst h6
    rw [show pyEscChar '\r' = ['\\', 'r'] from rfl] at h
    injection h with hh h
    subst h
    rfl
  by_cases h7 : c = '\t'
  · subst h7
    rw [show pyEscChar '\t' = ['\\', 't'] from rfl] at h
    injection h with hh h
    subst h
    rfl
  by_cases h8 : 0x20 ≤ c.toNat ∧ c.toNat ≤ 0x7e
  · exfalso
    simp only [pyEscChar, if_neg h1, if_neg h2, if_neg h3, if_neg h4, if_neg h5, if_neg h6,
      if_neg h7, if_pos h8, List.cons.injEq] at h
    exact h2 h.1
  by_cases h9 : c.toNat < 0x10000
  · have hs := charToNat_not_surr c
    simp only [pyEscChar, if_neg h1, if_neg h2, if_neg h3, if_neg h4, if_neg h5, if_neg h6,
      if_neg h7, if_neg h8, if_pos h9, uEsc, List.cons.injEq, true_and] at h
    subst h
    rw [List.cons_append, readEscChar_uHex c.toNat h9 rest,
      if_neg (show ¬ (0xd800 ≤ c.toNat ∧ c.toNat < 0xdc00) by omega), Char.ofNat_toNat]
  · have hlt := charToNat_lt_uni c
    simp only [pyEscChar, if_neg h1, if_neg h2, if_neg h3, if_neg h4, if_neg h5, if_neg h6,
      if_neg h7, if_neg h8, if_neg h9, uEsc, List.cons_append, List.append_assoc,
      List.cons.injEq, true_and] at h
    subst h
    rw [List.cons_append, List.append_assoc,
      readEscChar_uHex (0xd800 + (c.toNat - 0x10000) / 0x400) (by omega),
      if_pos (show 0xd800 ≤ 0xd800 + (c.toNat - 0x10000) / 0x400 ∧
        0xd800 + (c.toNat - 0x10000) / 0x400 < 0xdc00 by omega),
      show ('\\' :: 'u' :: hex4 (0xdc00 + (c.toNat - 0x10000) % 0x400)) ++ rest =
        uEsc (0xdc00 + (c.toNat - 0x10000) % 0x400) ++ rest from rfl,
      combineSurrogate_uEsc (0xd800 + (c.toNat - 0x10000) / 0x400)
        (0xdc00 + (c.toNat - 0x10000) % 0x400) (by omega) (by omega) rest,
      show 0x10000 + (0xd800 + (c.toNat - 0x10000) / 0x400 - 0xd800) * 0x400 +
        (0xdc00 + (c.toNat - 0x10000) % 0x400 - 0xdc00) = c.toNat from by omega,
      Char.ofNat_toNat]

/-- Parsing one escaped character undoes `pyEscChar`, consuming one unit of
fuel. -/
theorem parseStrBody_esc (c : Char) (fuel : Nat) (rest : LStr) :
    parseStrBody (fuel + 1) (pyEscChar c ++ rest) =
      (parseStrBody fuel rest).map (fun p => (c :: p.1, p.2)) := by
  by_cases hlit : (0x20 ≤ c.toNat ∧ c.toNat ≤ 0x7e) ∧ c ≠ '\"' ∧ c ≠ '\\'
  · obtain ⟨h8, h1, h2⟩ := hlit
    have hesc : pyEscChar c = [c] := by
      simp only [pyEscChar, if_neg h1, if_neg h2,
        if_neg (show ¬ c = '\x08' by apply char_ne_of_toNat_ne; simp; omega),
        if_neg (show ¬ c = '\x0c' by apply char_ne_of_toNat_ne; simp; omega),
        if_neg (show ¬ c = '\n' by apply char_ne_of_toNat_ne; simp; omega),
        if_neg (show ¬ c = '\r' by apply char_ne_of_toNat_ne; simp; omega),
        if_neg (show ¬ c = '\t' by apply char_ne_of_toNat_ne; simp; omega), if_pos h8]
    rw [hesc, List.cons_append, List.nil_append, parseStrBody, if_neg h1, if_neg h2,
      if_neg (show ¬ c.toNat < 0x20 by omega)]
  · have hbs : ∃ tail, pyEscChar c = '\\' :: tail := by
      by_cases h1 : c = '\"'
      · subst h1; exact ⟨['\"'], rfl⟩
      by_cases h2 : c = '\\'
      · subst h2; exact ⟨['\\'], rfl⟩
      by_cases h3 : c = '\x08'
      · subst h3; exact ⟨['b'], rfl⟩
      by_cases h4 : c = '\x0c'
      · subst h4; exact ⟨['f'], rfl⟩
      by_cases h5 : c = '\n'
      · subst h5; exact ⟨['n'], rfl⟩
      by_cases h6 : c = '\r'
      · subst h6; exact ⟨['r'], rfl⟩
      by_cases h7 : c = '\t'
      · subst h7; exact ⟨['t'], rfl⟩
      have h8 : ¬ (0x20 ≤ c.toNat ∧ c.toNat ≤ 0x7e) := by
        intro hc; exact hlit ⟨hc, h1, h2⟩
      by_cases h9 : c.toNat < 0x10000
      · refine ⟨'u' :: hex4 c.toNat, ?_⟩
        simp [pyEscChar, h1, h2, h3, h4, h5, h6, h7, h8, h9, uEsc]
      · refine ⟨'u' :: (hex4 (0xd800 + (c.toNat - 0x10000) / 0x400) ++
          uEsc (0xdc00 + (c.toNat - 0x10000) % 0x400)), ?_⟩
        simp [pyEscChar, h1, h2, h3, h4, h5, h6, h7, h8, h9, uEsc]
    obtain ⟨tail, htail⟩ := hbs
    rw [htail, List.cons_append, parseStrBody,
      if_neg (show ¬ ('\\' = '\"') by decide), if_pos rfl, readEscChar_esc c rest tail htail]

/-- Parsing a fully escaped string body up to the closing quote recovers the
original characters; the fuel only needs to exceed the character count. -/
theorem parseStrBody_dump (s : LStr) : ∀ (fuel : Nat) (rest : LStr), s.length < fuel →
    parseStrBody fuel (s.flatMap pyEscChar ++ '\"' :: rest) = some (s, rest) := by
  induction s with
  | nil =>
    intro fuel rest hf
    cases fuel with
    | zero => omega
    | succ f => simp [parseStrBody]
  | cons c s' ih =>
    intro fuel rest hf
    cases fuel with
    | zero => omega
    | succ f =>
      rw [List.flatMap_cons, List.append_assoc, parseStrBody_esc,
        ih f rest (by simpa using Nat.lt_of_succ_lt_succ hf)]
      rfl

/-- Every escape is at least one character long, so escaping never shortens
a string. -/
theorem flatMap_pyEscChar_len (s : LStr) : s.length ≤ (s.flatMap pyEscChar).length := by
  induction s with
  | nil => simp
  | cons c s' ih =>
    have h1 : 1 ≤ (pyEscChar c).length := by
      simp only [pyEscChar]
      repeat' split
      all_goals simp [uEsc, hex4]
    simp only [List.flatMap_cons, List.length_append, List.length_cons]
    omega

/-! Fuel accounting for the parser: `jfuel` bounds the fuel `parseVal`
needs on a rendered value, and is itself bounded by the rendered length. -/

mutual
/-- Fuel needed to parse a rendered value. -/
def jfuel : JVal → Nat
  | .vArr xs => jfuelItems xs + 1
  | .vObj ms => jfuelMembers ms + 1
  | _ => 1
/-- Fuel needed to parse a rendered item list (after the opening bracket). -/
def jfuelItems : List JVal → Nat
  | [] => 0
  | [x] => jfuel x + 1
  | x :: y :: tl => jfuel x + jfuelItems (y :: tl) + 1
/-- Fuel needed to parse a rendered member list (after the opening brace). -/
def jfuelMembers : List (LStr × JVal) → Nat
  | [] => 0
  | [(_, v)] => jfuel v + 1
  | (_, v) :: m :: tl => jfuel v + jfuelMembers (m :: tl) + 1
end

mutual
theorem dumpLen_val (v : JVal) : jfuel v ≤ (dumpVal v).length := by
  cases v with
  | vNull => simp [jfuel, dumpVal]
  | vBool b => cases b <;> simp [jfuel, dumpVal]
  | vInt n =>
    obtain ⟨c, t, hct, _, _⟩ := natDec_head n.natAbs
    by_cases hneg : n < 0 <;> simp [jfuel, dumpVal, intDec, hneg, hct]
  | vStr s => simp [jfuel, dumpVal, dumpStr]
  | vArr xs =>
    cases xs with
    | nil => simp [jfuel, jfuelItems, dumpVal, dumpItems]
    | cons x tl =>
      have h := dumpLen_items x tl
      simp only [jfuel, dumpVal, List.length_cons, List.length_append, List.length_singleton]
      omega
  | vObj ms =>
    cases ms with
    | nil => simp [jfuel, jfuelMembers, dumpVal, dumpMembers]
    | cons m tl =>
      have h := dumpLen_members m tl
      simp only [jfuel, dumpVal, List.length_cons, List.length_append, List.length_singleton]
      omega
termination_by sizeOf v
theorem dumpLen_items (x : JVal) (tl : List JVal) :
    jfuelItems (x :: tl) ≤ (dumpItems (x :: tl)).length + 1 := by
  cases tl with
  | nil =>
    have h := dumpLen_val x
    simp only [jfuelItems, dumpItems]
    omega
  | cons y tl' =>
    have h1 := dumpLen_val x
    have h2 := dumpLen_items y tl'
    simp only [jfuelItems, dumpItems, List.length_append, List.length_cons]
    omega
termination_by sizeOf x + sizeOf tl
theorem dumpLen_members (m : LStr × JVal) (tl : List (LStr × JVal)) :
    jfuelMembers (m :: tl) ≤ (dumpMembers (m :: tl)).length + 1 := by
  obtain ⟨k, v⟩ := m
  cases tl with
  | nil =>
    have h := dumpLen_val v
    simp only [jfuelMembers, dumpMembers, List.length_append, List.length_cons]
    omega
  | cons m' tl' =>
    have h1 := dumpLen_val v
    have h2 := dumpLen_members m' tl'
    simp only [jfuelMembers, dumpMembers, List.length_append, List.length_cons]
    omega
termination_by sizeOf m + sizeOf tl
end

/-! Head-character facts: rendered values never begin with whitespace or a
closing delimiter, so the whitespace-skipping and the bracket checks of the
parser are transparent on rendered output. -/

theorem dropWs_cons (c : Char) (t : LStr) (h : isJsonWs c = false) :
    dropWs (c :: t) = c :: t := by
  simp [dropWs, List.dropWhile_cons, h]

theorem dumpVal_head (v : JVal) :
    ∃ c t, dumpVal v = c :: t ∧ isJsonWs c = false ∧ c ≠ ']' ∧ c ≠ '\x7d' := by
  cases v with
  | vNull => refine ⟨'n', _, rfl, by decide, by decide, by decide⟩
  | vBool b =>
    cases b
    · refine ⟨'f', _, rfl, ?_, ?_, ?_⟩ <;> decide
    · refine ⟨'t', _, rfl, ?_, ?_, ?_⟩ <;> decide
  | vInt n =>
    by_cases hneg : n < 0
    · exact ⟨'-', natDec n.natAbs, by simp [dumpVal, intDec, hneg], by decide, by decide,
        by decide⟩
    · obtain ⟨c, t, hct, hd, _⟩ := natDec_head n.natAbs
      have hfacts := isDecDigit_notSpecial c hd
      exact ⟨c, t, by simp [dumpVal, intDec, hneg, hct], hfacts.1, hfacts.2.1, hfacts.2.2.1⟩
  | vStr s => exact ⟨'\"', _, rfl, by decide, by decide, by decide⟩
  | vArr xs => exact ⟨'[', _, rfl, by decide, by decide, by decide⟩
  | vObj ms => exact ⟨'\x7b', _, rfl, by decide, by decide, by decide⟩

theorem dumpItems_cons_shape (x : JVal) (tl : List JVal) :
    ∃ u, dumpItems (x :: tl) = dumpVal x ++ u := by
  cases tl with
  | nil => exact ⟨[], by simp [dumpItems]⟩
  | cons y tl' => exact ⟨',' :: dumpItems (y :: tl'), rfl⟩

/-- Definitional unfolding of `parseVal` at positive fuel and a nonempty
input. -/
theorem parseVal_step (fuel : Nat) (c : Char) (r : LStr) :
    parseVal (fuel + 1) (c :: r) =
      (if c = 'n' then
        (match r with
         | 'u' :: 'l' :: 'l' :: r2 => some (.vNull, r2)
         | _ => none)
      else if c = 't' then
        (match r with
         | 'r' :: 'u' :: 'e' :: r2 => some (.vBool true, r2)
         | _ => none)
      else if c = 'f' then
        (match r with
         | 'a' :: 'l' :: 's' :: 'e' :: r2 => some (.vBool false, r2)
         | _ => none)
      else if c = '\"' then (parseStrBody (r.length + 1) r).map (fun p => (.vStr p.1, p.2))
      else if c = '[' then
        (if (dropWs r).head? = some ']' then some (.vArr [], (dropWs r).tail)
         else (parseArrItems fuel (dropWs r)).map (fun p => (.vArr p.1, p.2)))
      else if c = '\x7b' then
        (if (dropWs r).head? = some '\x7d' then some (.vObj [], (dropWs r).tail)
         else (parseObjMembers fuel (dropWs r)).map (fun p => (.vObj p.1, p.2)))
      else (parseNum (c :: r)).map (fun p => (.vInt p.1, p.2))) := rfl

/-- Unfolding of `parseArrItems` when the leading value's parse is known. -/
theorem parseArrItems_val (fuel : Nat) (cs : LStr) (v : JVal) (r : LStr)
    (h : parseVal fuel cs = some (v, r)) :
    parseArrItems (fuel + 1) cs =
      (if (dropWs r).head? = some ',' then
        (parseArrItems fuel (dropWs (dropWs r).tail)).map (fun p => (v :: p.1, p.2))
      else if (dropWs r).head? = some ']' then some ([v], (dropWs r).tail)
      else none) := by
  simp only [parseArrItems, h]

theorem jfuel_pos (v : JVal) : 1 ≤ jfuel v := by
  cases v <;> simp [jfuel]

theorem jfuelItems_pos (x : JVal) (tl : List JVal) : 1 ≤ jfuelItems (x :: tl) := by
  cases tl <;> simp [jfuelItems]

theorem jfuelMembers_pos (m : LStr × JVal) (tl : List (LStr × JVal)) :
    1 ≤ jfuelMembers (m :: tl) := by
  obtain ⟨k, v⟩ := m
  cases tl <;> simp [jfuelMembers]

/-- Unfolding of `parseObjMembers` at a quote. -/
theorem parseObjMembers_step (fuel : Nat) (r : LStr) :
    parseObjMembers (fuel + 1) ('\"' :: r) =
      (match parseStrBody (r.length + 1) r with
       | none => none
       | some (k, r1) =>
         if (dropWs r1).head? = some ':' then
           (match parseVal fuel (dropWs (dropWs r1).tail) with
            | none => none
            | some (v, r3) =>
              if (dropWs r3).head? = some ',' then
                (parseObjMembers fuel (dropWs (dropWs r3).tail)).map
                  (fun p => ((k, v) :: p.1, p.2))
              else if (dropWs r3).head? = some '\x7d' then some ([(k, v)], (dropWs r3).tail)
              else none)
         else none) := rfl

mutual
/-- Round trip for one value: parsing its rendering consumes exactly it,
whenever the remainder cannot extend a number token. -/
theorem rt_val : ∀ (v : JVal) (fuel : Nat) (rest : LStr), jfuel v ≤ fuel →
    numStopB rest = true → parseVal fuel (dumpVal v ++ rest) = some (v, rest)
  | v, 0, rest, hf, _ => absurd hf (by have := jfuel_pos v; omega)
  | .vNull, f + 1, rest, hf, hrest => rfl
  | .vBool b, f + 1, rest, hf, hrest => by cases b <;> rfl
  | .vInt n, f + 1, rest, hf, hrest => by
    by_cases hneg : n < 0
    · rw [show dumpVal (.vInt n) ++ rest = '-' :: (natDec n.natAbs ++ rest) from by
        simp [dumpVal, intDec, hneg], parseVal_step, if_neg (by decide), if_neg (by decide),
        if_neg (by decide), if_neg (by decide), if_neg (by decide), if_neg (by decide),
        show ('-' :: (natDec n.natAbs ++ rest)) = intDec n ++ rest from by
          simp [intDec, hneg],
        parseNum_intDec n rest hrest]
      rfl
    · obtain ⟨c, t, hct, hd, _⟩ := natDec_head n.natAbs
      have hfacts := isDecDigit_notSpecial c hd
      rw [show dumpVal (.vInt n) ++ rest = c :: (t ++ rest) from by
        simp [dumpVal, intDec, hneg, hct], parseVal_step, if_neg hfacts.2.2.2.2.2.2.2.2.1,
        if_neg hfacts.2.2.2.2.2.2.2.2.2.1, if_neg hfacts.2.2.2.2.2.2.2.2.2.2.1,
        if_neg hfacts.2.2.2.2.2.2.2.2.2.2.2.1, if_neg hfacts.2.2.2.2.2.2.2.2.2.2.2.2.1,
        if_neg hfacts.2.2.2.2.2.2.2.2.2.2.2.2.2,
        show (c :: (t ++ rest)) = intDec n ++ rest from by simp [intDec, hneg, hct],
        parseNum_intDec n rest hrest]
      rfl
  | .vStr s, f + 1, rest, hf, hrest => by
    rw [show dumpVal (.vStr s) ++ rest =
      '\"' :: (s.flatMap pyEscChar ++ ('\"' :: rest)) from by simp [dumpVal, dumpStr],
      parseVal_step, if_neg (by decide), if_neg (by decide), if_neg (by decide),
      if_pos rfl,
      parseStrBody_dump s ((s.flatMap pyEscChar ++ ('\"' :: rest)).length + 1) rest (by
        have := flatMap_pyEscChar_len s
        simp only [List.length_append, List.length_cons]
        omega)]
    rfl
  | .vArr [], f + 1, rest, hf, hrest => rfl
  | .vArr (x :: tl), f + 1, rest, hf, hrest => by
    simp only [jfuel] at hf
    obtain ⟨c, t0, hx, hws, hbr, hbc⟩ := dumpVal_head x
    obtain ⟨u, hu⟩ := dumpItems_cons_shape x tl
    have hshape : dumpItems (x :: tl) ++ ']' :: rest = c :: (t0 ++ (u ++ ']' :: rest)) := by
      rw [hu, hx]
      simp
    rw [show dumpVal (.vArr (x :: tl)) ++ rest =
      '[' :: (dumpItems (x :: tl) ++ (']' :: rest)) from by simp [dumpVal],
      parseVal_step, if_neg (by decide), if_neg (by decide), if_neg (by decide),
      if_neg (by decide), if_pos rfl, hshape, dropWs_cons c _ hws,
      if_neg (by simp [hbr]), ← hshape,
      rt_items x tl f rest (by omega)]
    rfl
  | .vObj [], f + 1, rest, hf, hrest => rfl
  | .vObj ((k, v0) :: tl), f + 1, rest, hf, hrest => by
    simp only [jfuel] at hf
    rw [show dumpVal (.vObj ((k, v0) :: tl)) ++ rest =
      '\x7b' :: (dumpMembers ((k, v0) :: tl) ++ ('\x7d' :: rest)) from by simp [dumpVal],
      parseVal_step, if_neg (by decide), if_neg (by decide), if_neg (by decide),
      if_neg (by decide), if_neg (by decide), if_pos rfl]
    have hhead : ∃ u, dumpMembers ((k, v0) :: tl) = '\"' :: u := by
      cases tl with
      | nil => exact ⟨k.flatMap pyEscChar ++ ['\"'] ++ (':' :: dumpVal v0),
          by simp [dumpMembers, dumpStr]⟩
      | cons a b => exact ⟨k.flatMap pyEscChar ++ ['\"'] ++
          (':' :: dumpVal v0 ++ ',' :: dumpMembers (a :: b)),
          by simp [dumpMembers, dumpStr]⟩
    obtain ⟨u, hu⟩ := hhead
    have hshape : dumpMembers ((k, v0) :: tl) ++ '\x7d' :: rest =
        '\"' :: (u ++ '\x7d' :: rest) := by
      rw [hu]
      simp
    rw [hshape, dropWs_cons '\"' _ (by decide)]
    simp only [List.head?_cons]
    rw [if_neg (by decide), ← hshape, rt_members (k, v0) tl f rest (by omega)]
    rfl
termination_by v _ _ => sizeOf v
/-- Round trip for a nonempty rendered item list up to the closing bracket. -/
theorem rt_items : ∀ (x : JVal) (tl : List JVal) (fuel : Nat) (rest : LStr),
    jfuelItems (x :: tl) ≤ fuel →
    parseArrItems fuel (dumpItems (x :: tl) ++ ']' :: rest) = some (x :: tl, rest)
  | x, tl, 0, rest, hf => absurd hf (by have := jfuelItems_pos x tl; omega)
  | x, [], f + 1, rest, hf => by
    simp only [jfuelItems] at hf
    have hv := rt_val x f (']' :: rest) (by omega) rfl
    rw [show dumpItems [x] ++ ']' :: rest = dumpVal x ++ ']' :: rest from by
      simp [dumpItems], parseArrItems_val f _ x (']' :: rest) hv,
      dropWs_cons ']' rest (by decide)]
    simp only [List.head?_cons, List.tail_cons]
    rw [if_neg (by decide), if_true]
  | x, y :: tl', f + 1, rest, hf => by
    simp only [jfuelItems] at hf
    have hv := rt_val x f (',' :: (dumpItems (y :: tl') ++ ']' :: rest)) (by omega) rfl
    obtain ⟨c, t0, hy, hws, _, _⟩ := dumpVal_head y
    obtain ⟨u, hu⟩ := dumpItems_cons_shape y tl'
    have hshape : dumpItems (y :: tl') ++ ']' :: rest = c :: (t0 ++ (u ++ ']' :: rest)) := by
      rw [hu, hy]
      simp
    rw [show dumpItems (x :: y :: tl') ++ ']' :: rest =
      dumpVal x ++ (',' :: (dumpItems (y :: tl') ++ ']' :: rest)) from by
        simp [dumpItems], parseArrItems_val f _ x _ hv,
      dropWs_cons ',' _ (by decide)]
    simp only [List.head?_cons, List.tail_cons]
    rw [if_true, hshape, dropWs_cons c _ hws,
      ← hshape,
      rt_items y tl' f rest (by omega)]
    rfl
termination_by x tl _ _ => sizeOf x + sizeOf tl
/-- Round trip for a nonempty rendered member list up to the closing brace. -/
theorem rt_members : ∀ (m : LStr × JVal) (tl : List (LStr × JVal)) (fuel : Nat) (rest : LStr),
    jfuelMembers (m :: tl) ≤ fuel →
    parseObjMembers fuel (dumpMembers (m :: tl) ++ '\x7d' :: rest) = some (m :: tl, rest)
  | m, tl, 0, rest, hf => absurd hf (by have := jfuelMembers_pos m tl; omega)
  | (k, v), [], f + 1, rest, hf => by
    simp only [jfuelMembers] at hf
    have hv := rt_val v f ('\x7d' :: rest) (by omega) rfl
    have hshape : dumpMembers [(k, v)] ++ '\x7d' :: rest =
        '\"' :: (k.flatMap pyEscChar ++ ('\"' :: (':' :: (dumpVal v ++ '\x7d' :: rest)))) := by
      simp [dumpMembers, dumpStr]
    rw [hshape, parseObjMembers_step,
      parseStrBody_dump k _ _ (by
        have := flatMap_pyEscChar_len k
        simp only [List.length_append, List.length_cons]
        omega)]
    simp only [dropWs_cons ':' _ (by decide), List.head?_cons, List.tail_cons]
    rw [if_true]
    obtain ⟨c, t0, hv0, hws, _, _⟩ := dumpVal_head v
    have hshape2 : dumpVal v ++ '\x7d' :: rest = c :: (t0 ++ '\x7d' :: rest) := by
      rw [hv0]
      simp
    rw [hshape2, dropWs_cons c _ hws, ← hshape2, hv]
    simp only [dropWs_cons '\x7d' rest (by decide), List.head?_cons, List.tail_cons]
    rw [if_neg (by decide), if_true]
  | (k, v), (k', v') :: tl', f + 1, rest, hf => by
    simp only [jfuelMembers] at hf
    have hv := rt_val v f (',' :: (dumpMembers ((k', v') :: tl') ++ '\x7d' :: rest))
      (by omega) rfl
    have hshape : dumpMembers ((k, v) :: (k', v') :: tl') ++ '\x7d' :: rest =
        '\"' :: (k.flatMap pyEscChar ++ ('\"' :: (':' :: (dumpVal v ++
          ',' :: (dumpMembers ((k', v') :: tl') ++ '\x7d' :: rest))))) := by
      simp [dumpMembers, dumpStr]
    rw [hshape, parseObjMembers_step,
      parseStrBody_dump k _ _ (by
        have := flatMap_pyEscChar_len k
        simp only [List.length_append, List.length_cons]
        omega)]
    simp only [dropWs_cons ':' _ (by decide), List.head?_cons, List.tail_cons]
    rw [if_true]
    obtain ⟨c, t0, hv0, hws, _, _⟩ := dumpVal_head v
    have hshape2 : dumpVal v ++ ',' :: (dumpMembers ((k', v') :: tl') ++ '\x7d' :: rest) =
        c :: (t0 ++ ',' :: (dumpMembers ((k', v') :: tl') ++ '\x7d' :: rest)) := by
      rw [hv0]
      simp
    rw [hshape2, dropWs_cons c _ hws, ← hshape2, hv]
    simp only [dropWs_cons ',' _ (by decide), List.head?_cons, List.tail_cons]
    rw [if_true]
    have hhead3 : ∃ u, dumpMembers ((k', v') :: tl') = '\"' :: u := by
      cases tl' with
      | nil => exact ⟨k'.flatMap pyEscChar ++ ['\"'] ++ (':' :: dumpVal v'),
          by simp [dumpMembers, dumpStr]⟩
      | cons a b => exact ⟨k'.flatMap pyEscChar ++ ['\"'] ++
          (':' :: dumpVal v' ++ ',' :: dumpMembers (a :: b)),
          by simp [dumpMembers, dumpStr]⟩
    obtain ⟨u3, hu3⟩ := hhead3
    have hshape3 : dumpMembers ((k', v') :: tl') ++ '\x7d' :: rest =
        '\"' :: (u3 ++ '\x7d' :: rest) := by
      rw [hu3]
      simp
    rw [hshape3, dropWs_cons '\"' _ (by decide), ← hshape3,
      rt_members (k', v') tl' f rest (by omega)]
    rfl
termination_by m tl _ _ => sizeOf m + sizeOf tl
end

/-- The JSON round trip at the string level: `json.loads` inverts
`json.dumps` on every modelled value. -/
theorem jsonLoads_dumpVal (v : JVal) : jsonLoads (dumpVal v) = some v := by
  obtain ⟨c, t, hct, hws, _, _⟩ := dumpVal_head v
  have hfuel : jfuel v ≤ (dumpVal v).length + 1 := by
    have := dumpLen_val v
    omega
  have hrt := rt_val v ((dumpVal v).length + 1) [] hfuel rfl
  rw [List.append_nil] at hrt
  rw [jsonLoads, show dropWs (dumpVal v) = dumpVal v from by rw [hct]; exact dropWs_cons c t hws,
    hrt]
  rfl

/-! ## The byte layer: UTF-8 (CPython `str.encode` / `bytes.decode`,
strict errors).  The encoder is total on `Char` (Unicode scalar values);
the decoder validates lead/continuation structure, rejects overlong forms,
surrogates and out-of-range scalars, and fails (`UnicodeDecodeError`) on
anything else. -/

/-- UTF-8 bytes of one scalar value. -/
def utf8EncodeChar (c : Char) : List Nat :=
  let n := c.toNat
  if n < 0x80 then [n]
  else if n < 0x800 then [0xc0 + n / 64, 0x80 + n % 64]
  else if n < 0x10000 then [0xe0 + n / 4096, 0x80 + n / 64 % 64, 0x80 + n % 64]
  else [0xf0 + n / 0x40000, 0x80 + n / 4096 % 64, 0x80 + n / 64 % 64, 0x80 + n % 64]

/-- UTF-8 encoding of a string (`str.encode()`). -/
def utf8Encode (s : LStr) : List Nat := s.flatMap utf8EncodeChar

/-- Continuation byte test. -/
def isUtf8Cont (b : Nat) : Bool := 0x80 ≤ b && b < 0xc0

/-- Decode one UTF-8 sequence: lead byte `b`, then continuation bytes taken
from `rest`.  Rejects continuation-byte leads, overlong forms, surrogates
and scalars beyond U+10FFFF (CPython strict decoding). -/
def utf8DecodeOne (b : Nat) (rest : List Nat) : Option (Char × List Nat) :=
  if b < 0x80 then some (Char.ofNat b, rest)
  else if b < 0xc2 then none
  else if b < 0xe0 then
    (match rest with
     | b2 :: r2 =>
       if isUtf8Cont b2 then some (Char.ofNat ((b - 0xc0) * 64 + (b2 - 0x80)), r2)
       else none
     | [] => none)
  else if b < 0xf0 then
    (match rest with
     | b2 :: b3 :: r3 =>
       if isUtf8Cont b2 && isUtf8Cont b3 &&
           decide (0x800 ≤ (b - 0xe0) * 4096 + (b2 - 0x80) * 64 + (b3 - 0x80)) &&
           !(decide (0xd800 ≤ (b - 0xe0) * 4096 + (b2 - 0x80) * 64 + (b3 - 0x80)) &&
             decide ((b - 0xe0) * 4096 + (b2 - 0x80) * 64 + (b3 - 0x80) < 0xe000)) then
         some (Char.ofNat ((b - 0xe0) * 4096 + (b2 - 0x80) * 64 + (b3 - 0x80)), r3)
       else none
     | _ => none)
  else if b < 0xf5 then
    (match rest with
     | b2 :: b3 :: b4 :: r4 =>
       if isUtf8Cont b2 && isUtf8Cont b3 && isUtf8Cont b4 &&
           decide (0x10000 ≤ (b - 0xf0) * 0x40000 + (b2 - 0x80) * 4096 +
             (b3 - 0x80) * 64 + (b4 - 0x80)) &&
           decide ((b - 0xf0) * 0x40000 + (b2 - 0x80) * 4096 +
             (b3 - 0x80) * 64 + (b4 - 0x80) < 0x110000) then
         some (Char.ofNat ((b - 0xf0) * 0x40000 + (b2 - 0x80) * 4096 +
           (b3 - 0x80) * 64 + (b4 - 0x80)), r4)
       else none
     | _ => none)
  else none

/-- Strict UTF-8 decoding, fuel-structural (the fuel, input length plus
one, never runs out since every sequence consumes at least one byte). -/
def utf8DecodeAux : Nat → List Nat → Option LStr
  | 0, _ => none
  | _, [] => some []
  | fuel + 1, b :: rest =>
    match utf8DecodeOne b rest with
    | some (c, r) => (utf8DecodeAux fuel r).map (fun s => c :: s)
    | none => none

/-- Strict UTF-8 decoding (`bytes.decode()`); `none` models
`UnicodeDecodeError`. -/
def utf8Decode (bs : List Nat) : Option LStr := utf8DecodeAux (bs.length + 1) bs

/-- Decoding one ASCII byte. -/
theorem utf8DecodeOne_ascii (b : Nat) (rest : List Nat) (h : b < 0x80) :
    utf8DecodeOne b rest = some (Char.ofNat b, rest) := by
  rw [utf8DecodeOne.eq_def, if_pos h]

/-- A pure-ASCII byte list decodes to itself, character by character. -/
theorem utf8DecodeAux_ascii (bs : List Nat) : ∀ fuel, bs.length < fuel →
    (∀ b ∈ bs, b < 0x80) → utf8DecodeAux fuel bs = some (bs.map Char.ofNat) := by
  induction bs with
  | nil =>
    intro fuel hfuel h
    cases fuel with
    | zero => omega
    | succ f => rfl
  | cons b rest ih =>
    intro fuel hfuel h
    cases fuel with
    | zero => omega
    | succ f =>
      have hb : b < 0x80 := h b (by simp)
      rw [utf8DecodeAux, utf8DecodeOne_ascii b rest hb]
      simp only [ih f (by simpa using Nat.lt_of_succ_lt_succ hfuel)
        (fun x hx => h x (by simp [hx]))]
      rfl

theorem utf8Decode_ascii (bs : List Nat) (h : ∀ b ∈ bs, b < 0x80) :
    utf8Decode bs = some (bs.map Char.ofNat) :=
  utf8DecodeAux_ascii bs (bs.length + 1) (by omega) h

/-- An all-ASCII string UTF-8-encodes byte-per-character. -/
theorem utf8Encode_ascii (s : LStr) (h : ∀ c ∈ s, c.toNat < 0x80) :
    utf8Encode s = s.map Char.toNat := by
  induction s with
  | nil => rfl
  | cons c rest ih =>
    have hc : c.toNat < 0x80 := h c (by simp)
    simp only [utf8Encode, List.flatMap_cons, utf8EncodeChar, if_pos hc, List.map_cons]
    rw [← utf8Encode, ih (fun x hx => h x (by simp [hx]))]
    rfl

/-- Round trip of UTF-8 on all-ASCII strings. -/
theorem utf8_roundtrip_ascii (s : LStr) (h : ∀ c ∈ s, c.toNat < 0x80) :
    utf8Decode (utf8Encode s) = some s := by
  rw [utf8Encode_ascii s h, utf8Decode_ascii (s.map Char.toNat) (by
    intro b hb
    obtain ⟨c, hc, rfl⟩ := List.mem_map.mp hb
    exact h c hc)]
  congr 1
  rw [List.map_map]
  apply List.map_id''
  intro c
  exact Char.ofNat_toNat c

/-! The compact renderer only ever emits ASCII (that is what
`ensure_ascii=True` is for), so the byte layer is transparent on it. -/

theorem hexDigitChar_ascii (d : Nat) : (hexDigitChar d).toNat < 0x80 := by
  unfold hexDigitChar
  split <;> decide

theorem decDigitChar_ascii (d : Nat) : (decDigitChar d).toNat < 0x80 := by
  unfold decDigitChar
  split <;> decide

theorem pyEscChar_ascii (c : Char) : ∀ x ∈ pyEscChar c, x.toNat < 0x80 := by
  intro x hx
  have huesc : ∀ n x2, x2 ∈ uEsc n → x2.toNat < 0x80 := by
    intro n x2 hx2
    simp only [uEsc, hex4, List.mem_cons] at hx2
    rcases hx2 with rfl | rfl | rfl | rfl | rfl | rfl | h
    · decide
    · decide
    · exact hexDigitChar_ascii _
    · exact hexDigitChar_ascii _
    · exact hexDigitChar_ascii _
    · exact hexDigitChar_ascii _
    · simp at h
  unfold pyEscChar at hx
  by_cases h1 : c = '\"'
  · rw [if_pos h1] at hx
    simp at hx
    rcases hx with rfl | rfl <;> decide
  rw [if_neg h1] at hx
  by_cases h2 : c = '\\'
  · rw [if_pos h2] at hx
    simp at hx
    rcases hx with rfl | rfl <;> decide
  rw [if_neg h2] at hx
  by_cases h3 : c = '\x08'
  · rw [if_pos h3] at hx
    simp at hx
    rcases hx with rfl | rfl <;> decide
  rw [if_neg h3] at hx
  by_cases h4 : c = '\x0c'
  · rw [if_pos h4] at hx
    simp at hx
    rcases hx with rfl | rfl <;> decide
  rw [if_neg h4] at hx
  by_cases h5 : c = '\n'
  · rw [if_pos h5] at hx
    simp at hx
    rcases hx with rfl | rfl <;> decide
  rw [if_neg h5] at hx
  by_cases h6 : c = '\r'
  · rw [if_pos h6] at hx
    simp at hx
    rcases hx with rfl | rfl <;> decide
  rw [if_neg h6] at hx
  by_cases h7 : c = '\t'
  · rw [if_pos h7] at hx
    simp at hx
    rcases hx with rfl | rfl <;> decide
  rw [if_neg h7] at hx
  by_cases h8 : 0x20 ≤ c.toNat ∧ c.toNat ≤ 0x7e
  · rw [if_pos h8] at hx
    simp at hx
    subst hx
    omega
  rw [if_neg h8] at hx
  by_cases h9 : c.toNat < 0x10000
  · rw [if_pos h9] at hx
    exact huesc _ _ hx
  · rw [if_neg h9, List.mem_append] at hx
    rcases hx with hx | hx <;> exact huesc _ _ hx

theorem natDec_ascii (n : Nat) : ∀ c ∈ natDec n, c.toNat < 0x80 := by
  intro c hc
  have := isDecDigit_bounds c (natDec_all_digits n c hc)
  omega

mutual
theorem dumpVal_ascii : ∀ (v : JVal), ∀ c ∈ dumpVal v, c.toNat < 0x80
  | .vNull => by
    intro c hc
    rw [show dumpVal .vNull = ['n', 'u', 'l', 'l'] from rfl] at hc
    simp only [List.mem_cons, List.not_mem_nil, or_false] at hc
    rcases hc with rfl | rfl | rfl | rfl <;> decide
  | .vBool b => by
    cases b with
    | false =>
      intro c hc
      rw [show dumpVal (.vBool false) = ['f', 'a', 'l', 's', 'e'] from rfl] at hc
      simp only [List.mem_cons, List.not_mem_nil, or_false] at hc
      rcases hc with rfl | rfl | rfl | rfl | rfl <;> decide
    | true =>
      intro c hc
      rw [show dumpVal (.vBool true) = ['t', 'r', 'u', 'e'] from rfl] at hc
      simp only [List.mem_cons, List.not_mem_nil, or_false] at hc
      rcases hc with rfl | rfl | rfl | rfl <;> decide
  | .vInt n => by
    intro c hc
    simp only [dumpVal, intDec] at hc
    split at hc
    · simp only [List.mem_cons] at hc
      rcases hc with rfl | hc
      · decide
      · exact natDec_ascii n.natAbs c hc
    · exact natDec_ascii n.natAbs c hc
  | .vStr s => by
    intro c hc
    simp only [dumpVal, dumpStr, List.mem_cons, List.mem_append] at hc
    rcases hc with rfl | hc | hc
    · decide
    · obtain ⟨x, _, hx⟩ := List.mem_flatMap.mp hc
      exact pyEscChar_ascii x c hx
    · simp at hc
      subst hc
      decide
  | .vArr xs => by
    intro c hc
    simp only [dumpVal, List.mem_cons, List.mem_append] at hc
    rcases hc with rfl | hc | hc
    · decide
    · exact dumpItems_ascii xs c hc
    · simp at hc
      subst hc
      decide
  | .vObj ms => by
    intro c hc
    simp only [dumpVal, List.mem_cons, List.mem_append] at hc
    rcases hc with rfl | hc | hc
    · decide
    · exact dumpMembers_ascii ms c hc
    · simp at hc
      subst hc
      decide
termination_by v => sizeOf v
theorem dumpItems_ascii : ∀ (xs : List JVal), ∀ c ∈ dumpItems xs, c.toNat < 0x80
  | [] => by
    intro c hc
    simp [dumpItems] at hc
  | [x] => by
    intro c hc
    rw [show dumpItems [x] = dumpVal x from by simp [dumpItems]] at hc
    exact dumpVal_ascii x c hc
  | x :: y :: tl => by
    intro c hc
    simp only [dumpItems, List.mem_append, List.mem_cons] at hc
    rcases hc with hc | rfl | hc
    · exact dumpVal_ascii x c hc
    · decide
    · exact dumpItems_ascii (y :: tl) c hc
termination_by xs => sizeOf xs
theorem dumpMembers_ascii : ∀ (ms : List (LStr × JVal)), ∀ c ∈ dumpMembers ms, c.toNat < 0x80
  | [] => by
    intro c hc
    simp [dumpMembers] at hc
  | [(k, v)] => by
    intro c hc
    rw [show dumpMembers [(k, v)] = dumpStr k ++ ':' :: dumpVal v from by
      simp [dumpMembers]] at hc
    simp only [List.mem_append, List.mem_cons] at hc
    rcases hc with hc | rfl | hc
    · exact dumpVal_ascii (.vStr k) c (by simpa [dumpVal] using hc)
    · decide
    · exact dumpVal_ascii v c hc
  | (k, v) :: m :: tl => by
    intro c hc
    have hunfold : dumpMembers ((k, v) :: m :: tl) =
        dumpStr k ++ ':' :: dumpVal v ++ ',' :: dumpMembers (m :: tl) := rfl
    rw [hunfold] at hc
    simp only [List.mem_append, List.mem_cons] at hc
    rcases hc with (hc | rfl | hc) | rfl | hc
    · exact dumpVal_ascii (.vStr k) c (by simpa [dumpVal] using hc)
    · decide
    · exact dumpVal_ascii v c hc
    · decide
    · exact dumpMembers_ascii (m :: tl) c hc
termination_by ms => sizeOf ms
end

/-! ## The content codec of the client (§ Content Codec)

`_encode_content` is `json.dumps(value, separators=(",", ":")).encode()`;
`_decode_content` is `json.loads(content.decode())` wrapped in
`try/except json.JSONDecodeError`, which logs and returns `None` on a JSON
parse failure.  A `UnicodeDecodeError` from `content.decode()` is NOT
caught by that handler and escapes to the caller, which the outcome type
below records explicitly. -/

/-- Caller-visible outcome of `_decode_content`. -/
inductive DecodeOutcome where
  | val (v : JVal) : DecodeOutcome
  | noContent : DecodeOutcome
  | unicodeError : DecodeOutcome

/-- Model of `_encode_content` (source lines 166-169). -/
def encode_content (v : JVal) : List Nat := utf8Encode (dumpVal v)

/-- Model of `_decode_content` (source lines 158-164): UTF-8 decode the
bytes (an invalid encoding raises `UnicodeDecodeError`, uncaught), then
`json.loads` (a parse failure is caught, logged, and surfaced as `None`). -/
def decode_content (content : List Nat) : DecodeOutcome :=
  match utf8Decode content with
  | none => .unicodeError
  | some s =>
    match jsonLoads s with
    | none => .noContent
    | some v => .val v

/-- The byte-level round trip of the content codec. -/
theorem decode_encode_content (v : JVal) : decode_content (encode_content v) = .val v := by
  rw [decode_content, encode_content, utf8_roundtrip_ascii (dumpVal v) (dumpVal_ascii v)]
  simp only [jsonLoads_dumpVal v]

/-! ## Python dictionaries

CPython dictionaries preserve insertion order; we model a `dict` as an
association list with pairwise-distinct keys maintained by construction:
`d[k]` is the first (only) binding of `k`, `d[k] = v` replaces the value of
an existing key in place and appends a fresh key at the end, and
`d.update(other)` assigns `other`'s bindings one by one in order. -/

/-- `d[k]` as a lookup (`none` = `KeyError` / key absent). -/
def pyDictGet {α : Type} : List (LStr × α) → LStr → Option α
  | [], _ => none
  | (k, v) :: tl, key => if k = key then some v else pyDictGet tl key

/-- `d[key] = v`: replace in place if `key` is bound, else append. -/
def pyDictSet {α : Type} : List (LStr × α) → LStr → α → List (LStr × α)
  | [], key, v => [(key, v)]
  | (k, w) :: tl, key, v =>
    if k = key then (k, v) :: tl else (k, w) :: pyDictSet tl key v

/-- `d.update(other)`: assign each binding of `other` in order. -/
def pyDictUpdate {α : Type} (d other : List (LStr × α)) : List (LStr × α) :=
  other.foldl (fun acc kv => pyDictSet acc kv.1 kv.2) d

/-- Exceptions the modelled code can raise. -/
inductive PyErr where
  | keyError : PyErr
  | typeError : PyErr
  | attributeError : PyErr
  | indexError : PyErr
  | unicodeDecodeError : PyErr
  | binasciiError : PyErr
deriving DecidableEq

/-- Python `x is None` on a JSON value. -/
def isVNull : JVal → Bool
  | .vNull => true
  | _ => false

/-- Python `v == s` for a JSON value against a `str` (values of any other
type compare unequal to a string). -/
def jEqStr (v : JVal) (s : LStr) : Bool :=
  match v with
  | .vStr t => t = s
  | _ => false

/-- Python `obj[key]` on a decoded JSON value (`none` covers both a missing
key (`KeyError`) and subscripting a non-dict (`TypeError`)). -/
def pyGetItem (j : JVal) (key : LStr) : Option JVal :=
  match j with
  | .vObj ms => pyDictGet ms key
  | _ => none

/-- Python `len` on a decoded JSON value (`none` = `TypeError`). -/
def pyLen (j : JVal) : Option Nat :=
  match j with
  | .vStr s => some s.length
  | .vArr xs => some xs.length
  | .vObj ms => some ms.length
  | _ => none

/-! ## Dictionary keys used by the client (string literals of the source). -/

def keyId : LStr := "id".data
def keyThumbnail : LStr := "thumbnail".data
def keyImageLabels : LStr := "imageLabels".data
def keyFileInfo : LStr := "fileInfo".data
def keyImageUID : LStr := "imageUID".data
def keyAnnotationUID : LStr := "annotationUID".data
def keyAuditUID : LStr := "auditUID".data
def keyAnnotationComplete : LStr := "annotationComplete".data
def keyMetadata : LStr := "metadata".data
def keySpline : LStr := "spline".data
def keyCoordinates : LStr := "coordinates".data
def keyBrushStrokes : LStr := "brushStrokes".data
def keyBoundingBox : LStr := "boundingBox".data
def keyTopLeft : LStr := "topLeft".data
def keyBottomRight : LStr := "bottomRight".data
def keyX : LStr := "x".data
def keyY : LStr := "y".data
def keySpaceTimeInfo : LStr := "spaceTimeInfo".data
def keyIsClosed : LStr := "isClosed".data
def keyToolbox : LStr := "toolbox".data
def keyLabels : LStr := "labels".data
def keyParameters : LStr := "parameters".data
def keyType : LStr := "type".data
def keyCreatedTime : LStr := "createdTime".data
def keyModifiedTime : LStr := "modifiedTime".data
def keyIsComplete : LStr := "isComplete".data

/-! ## The emptiness predicate and the annotation constructors (§3)

`is_empty_annotation` (source lines 176-192) evaluates, left to right and
with the non-short-circuiting `&`,
`(len(a["spline"]["coordinates"]) == 0) & (len(a["brushStrokes"]) == 0) &
(a["boundingBox"]["coordinates"]["topLeft"]["x"] is None)`.
A missing key or an operand of the wrong type raises (modelled as `none`). -/

/-- Model of `is_empty_annotation` (the name avoids a reserved suffix). -/
def is_empty_annot (a : JVal) : Option Bool := do
  let spline ← pyGetItem a keySpline
  let coords ← pyGetItem spline keyCoordinates
  let nCoords ← pyLen coords
  let strokes ← pyGetItem a keyBrushStrokes
  let nStrokes ← pyLen strokes
  let bb ← pyGetItem a keyBoundingBox
  let bbCoords ← pyGetItem bb keyCoordinates
  let topLeft ← pyGetItem bbCoords keyTopLeft
  let x ← pyGetItem topLeft keyX
  return (decide (nCoords = 0) && decide (nStrokes = 0) && isVNull x)

/-- Model of `create_xypoint` (source lines 274-277). -/
def create_xypoint (x y : JVal) : JVal :=
  .vObj [(keyX, x), (keyY, y)]

/-- Model of `create_spline` (source lines 227-247). -/
def create_spline (coordinates : List JVal) (space_time_info : JVal)
    (is_closed : Bool) : JVal :=
  .vObj [(keyCoordinates, .vArr coordinates),
         (keySpaceTimeInfo, space_time_info),
         (keyIsClosed, .vBool is_closed)]

/-- Model of `create_bounding_box` (source lines 249-272). -/
def create_bounding_box (top_left bottom_right space_time_info : JVal) : JVal :=
  .vObj [(keyCoordinates, .vObj [(keyTopLeft, top_left),
                                 (keyBottomRight, bottom_right)]),
         (keySpaceTimeInfo, space_time_info)]

/-- Model of `create_annotation` (source lines 279-330; the name avoids a
reserved suffix). -/
def create_annot (toolbox : LStr) (labels : List LStr) (spline : JVal)
    (bounding_box : JVal) (brush_strokes : List JVal)
    (parameters : List (LStr × JVal)) : JVal :=
  .vObj [(keyToolbox, .vStr toolbox),
         (keyLabels, .vArr (labels.map .vStr)),
         (keySpline, spline),
         (keyBoundingBox, bounding_box),
         (keyBrushStrokes, .vArr brush_strokes),
         (keyParameters, .vObj parameters)]

/-! ## Gallery tiles (§4.3)

`_create_tile_update` (source lines 463-502) builds the patch dictionary;
`_update_gallery_tile` (source lines 585-631) decodes the gallery from the
project content, locates the tile by `id` (`_find_gallery_tile`, lines
573-580), applies the inner `update_tile` and re-encodes.  The whole body
runs under `try/except Exception`, which logs any error and returns
normally, leaving the content unchanged.

`update_tile(tile, metadata=None, annotationUID=None, auditUID=None,
annotationComplete=None, imageLabels=None, **kwargs)` is called as
`update_tile({**tile}, **tile_data)`: each key of `tile_data` binds the
parameter of the same name, and keys matching no parameter — in particular
the `"fileInfo"` key that `_create_tile_update` produces — are swallowed by
`**kwargs` and ignored. -/

/-- Model of `_create_tile_update`. -/
def create_tile_update (image_labels : Option (List JVal))
    (metadata annotation_uid audit_uid annotation_complete : List (LStr × JVal)) :
    List (LStr × JVal) :=
  let tile := [(keyFileInfo, JVal.vObj metadata),
               (keyAnnotationUID, JVal.vObj annotation_uid),
               (keyAuditUID, JVal.vObj audit_uid),
               (keyAnnotationComplete, JVal.vObj annotation_complete)]
  match image_labels with
  | none => tile
  | some ls => pyDictSet tile keyImageLabels (JVal.vArr ls)

/-- A keyword argument bound from `tile_data`: a missing key binds the
default `None`, and an explicit `null` value is also `None`. -/
def kwArg (tile_data : List (LStr × JVal)) (key : LStr) : Option JVal :=
  match pyDictGet tile_data key with
  | some .vNull => none
  | x => x

/-- `tile[key].update(patch)`: `KeyError` if `key` is unbound,
`AttributeError` if its value is not a dict (e.g. `None`), else a key-wise
merge of `patch` into the field.  (A non-dict `patch` is collapsed to
`TypeError`; every patch the client builds is a dict.) -/
def dict_update_field (tile : List (LStr × JVal)) (key : LStr) (patch : JVal) :
    Except PyErr (List (LStr × JVal)) :=
  match pyDictGet tile key with
  | none => .error .keyError
  | some (.vObj d) =>
    match patch with
    | .vObj p => .ok (pyDictSet tile key (.vObj (pyDictUpdate d p)))
    | _ => .error .typeError
  | some _ => .error .attributeError

/-- Model of the inner `update_tile` (source lines 595-616), applied to a
tile dictionary and the keyword dictionary `tile_data`. -/
def update_tile (tile tile_data : List (LStr × JVal)) :
    Except PyErr (List (LStr × JVal)) := do
  let t1 ← match kwArg tile_data keyMetadata with
    | none => pure tile
    | some m => dict_update_field tile keyFileInfo m
  let t2 ← match kwArg tile_data keyAnnotationUID with
    | none => pure t1
    | some m => dict_update_field t1 keyAnnotationUID m
  let t3 ← match kwArg tile_data keyAuditUID with
    | none => pure t2
    | some m => dict_update_field t2 keyAuditUID m
  let t4 ← match kwArg tile_data keyAnnotationComplete with
    | none => pure t3
    | some m =>
      let t3b := if (pyDictGet t3 keyAnnotationComplete).isSome then t3
                 else pyDictSet t3 keyAnnotationComplete (.vObj [])
      dict_update_field t3b keyAnnotationComplete m
  match kwArg tile_data keyImageLabels with
  | none => pure t4
  | some m => pure (pyDictSet t4 keyImageLabels m)

/-- Model of `_find_gallery_tile`: the index of the first tile whose
`tile["id"]` equals `id`.  A non-dict tile raises `TypeError`, a dict tile
without an `"id"` key raises `KeyError`. -/
def find_gallery_tile : List JVal → LStr → Except PyErr (Option Nat)
  | [], _ => .ok none
  | tile :: tl, id =>
    match tile with
    | .vObj ms =>
      match pyDictGet ms keyId with
      | none => .error .keyError
      | some v =>
        if jEqStr v id then .ok (some 0)
        else (find_gallery_tile tl id).map (Option.map (· + 1))
    | _ => .error .typeError

/-- Caller-visible outcome of `_update_gallery_tile`: the function always
returns (its body is wrapped in `except Exception`, which logs and falls
through), so `raised` is never produced — it exists to state the spec's
thrown-error reading. -/
inductive UpdateTileOutcome where
  | completed (content : List Nat) : UpdateTileOutcome
  | raised (e : PyErr) : UpdateTileOutcome

/-- Whether an `UpdateTileOutcome` is a thrown error. -/
def tileOutcomeRaised : UpdateTileOutcome → Bool
  | .completed _ => false
  | .raised _ => true

/-- Model of `_update_gallery_tile` on a project content `content`:
decode the gallery (`_get_gallery`), find the tile, patch it, re-encode.
Any exception along the way — including the `TypeError` from indexing with
the `None` that `_find_gallery_tile` returns when no tile matches — is
caught by the `except Exception` handler, which logs it and leaves the
content unchanged. -/
def update_gallery_tile (content : List Nat) (item_uid : LStr)
    (tile_data : List (LStr × JVal)) : UpdateTileOutcome :=
  let attempt : Except PyErr (List Nat) := do
    let gallery ← match decode_content content with
      | .unicodeError => .error .unicodeDecodeError
      | .noContent => .error .typeError
      | .val (.vArr tiles) => .ok tiles
      | .val _ => .error .typeError
    let idx ← find_gallery_tile gallery item_uid
    match idx with
    | none => .error .typeError
    | some i =>
      match gallery[i]? with
      | some (.vObj tile) => do
        let newTile ← update_tile tile tile_data
        .ok (encode_content (.vArr (gallery.set i (.vObj newTile))))
      | _ => .error .typeError
  match attempt with
  | .ok c => .completed c
  | .error _ => .completed content

/-! ## Structured tiles and the item store (§4.4, §4.5)

A well-formed gallery tile has the shape `_create_new_tile` (source lines
504-548) produces; `TileS` carries its fields and `TileS.toJson` rebuilds
the dictionary in that key order.  The encrypted STORE backend is modelled
as `StoreState`: the project's gallery content, the project's items keyed
by uid, and a counter from which the backend mints fresh item uids. -/

/-- A well-formed gallery tile, with the fields of `_create_new_tile`. -/
structure TileS where
  id : LStr
  thumbnail : LStr
  imageLabels : List JVal
  fileInfo : List (LStr × JVal)
  imageUID : LStr
  annotationUID : List (LStr × JVal)
  auditUID : List (LStr × JVal)
  annotationComplete : List (LStr × JVal)

/-- The tile's dictionary, in the key order of `_create_new_tile`. -/
def TileS.fields (t : TileS) : List (LStr × JVal) :=
  [(keyId, .vStr t.id),
   (keyThumbnail, .vStr t.thumbnail),
   (keyImageLabels, .vArr t.imageLabels),
   (keyFileInfo, .vObj t.fileInfo),
   (keyImageUID, .vStr t.imageUID),
   (keyAnnotationUID, .vObj t.annotationUID),
   (keyAuditUID, .vObj t.auditUID),
   (keyAnnotationComplete, .vObj t.annotationComplete)]

/-- The tile as a JSON value. -/
def TileS.toJson (t : TileS) : JVal := .vObj t.fields

/-- The gallery content encoding a list of structured tiles. -/
def galleryBytes (tiles : List TileS) : List Nat :=
  encode_content (.vArr (tiles.map TileS.toJson))

/-- A stored item: its metadata dictionary and its binary content. -/
structure ItemData where
  meta : List (LStr × JVal)
  content : List Nat

/-- The store: project gallery content, items by uid, and the next fresh
item uid the backend will mint. -/
structure StoreState where
  projectContent : List Nat
  items : List (LStr × ItemData)
  nextUid : Nat

/-- The uid the backend mints for the `n`-th created item. -/
def freshUid (n : Nat) : LStr := "item".data ++ natDec n

/-- Model of `get_project_item` (source lines 414-461): the fetch is under
`try/except`, so a missing or unfetchable item yields `None`. -/
def get_project_item (store : StoreState) (item_uid : LStr) : Option ItemData :=
  pyDictGet store.items item_uid

/-- The metadata of a new annotation item (source lines 895-901). -/
def annot_item_meta (now : Int) : List (LStr × JVal) :=
  [(keyType, .vStr "gliff.annotation".data),
   (keyCreatedTime, .vInt now),
   (keyModifiedTime, .vInt now),
   (keyIsComplete, .vBool false)]

/-- Model of `_create_annotation_item` (source lines 860-915, the name
avoids a reserved suffix): create and persist a new item holding the
encoded annotations, then patch the image's gallery tile with
`annotation_uid={username: uid}` and `annotation_complete={username:
False}` via `_create_tile_update`/`_update_gallery_tile`.  Returns the
store and the new item's uid. -/
def create_annot_item (store : StoreState) (image_item_uid username : LStr)
    (anns : List JVal) (metadata : List (LStr × JVal)) (now : Int) :
    StoreState × LStr :=
  let uid := freshUid store.nextUid
  let item : ItemData := ⟨annot_item_meta now, encode_content (.vArr anns)⟩
  let store1 : StoreState :=
    ⟨store.projectContent, store.items ++ [(uid, item)], store.nextUid + 1⟩
  let tile_data := create_tile_update none metadata
    [(username, .vStr uid)] [] [(username, .vBool false)]
  match update_gallery_tile store1.projectContent image_item_uid tile_data with
  | .completed c => (⟨c, store1.items, store1.nextUid⟩, uid)
  | .raised _ => (store1, uid)

/-- Caller-visible outcome of `_update_annotation_item`: the updated store
and the returned uid, or an exception escaping to the caller (this
function's body is not wrapped in `try/except`). -/
inductive UpdateAnnOutcome where
  | done (store : StoreState) (item_uid : LStr) : UpdateAnnOutcome
  | raised (e : PyErr) : UpdateAnnOutcome

/-- Model of `_update_annotation_item` (source lines 917-972, the name
avoids a reserved suffix).  The guard on line 957 reads
`if len(prev_annotations) > 0 & self.is_empty_annotation(prev_annotations[-1]):`
and Python's `&` binds tighter than `>`, so it parses as
`len(prev) > (0 & is_empty(prev[-1]))`, i.e. `len(prev) > 0` — though
`prev[-1]` and the emptiness predicate are still evaluated (raising on an
empty or malformed record).  The model keeps the computation literally:
`0 &&& (toNat of the predicate)`.  Error cases: a missing item makes
`item.content` raise `AttributeError`; invalid UTF-8 raises
`UnicodeDecodeError`; content decoding to `None` makes `len(None)` raise
`TypeError` (a decoded non-list is collapsed to the same); an empty record
raises `IndexError` at `prev[-1]`; a malformed last annotation raises
inside the emptiness predicate (collapsed to `KeyError`). -/
def update_annot_item (store : StoreState) (image_item_uid ann_item_uid : LStr)
    (anns : List JVal) (metadata : List (LStr × JVal)) (now : Int) :
    UpdateAnnOutcome :=
  match get_project_item store ann_item_uid with
  | none => .raised .attributeError
  | some item =>
    match decode_content item.content with
    | .unicodeError => .raised .unicodeDecodeError
    | .noContent => .raised .typeError
    | .val (.vArr prev) =>
      match prev.getLast? with
      | none => .raised .indexError
      | some last =>
        match is_empty_annot last with
        | none => .raised .keyError
        | some b =>
          let prev2 := if (0 &&& b.toNat) < prev.length then prev.dropLast else prev
          let item2 : ItemData :=
            ⟨pyDictSet item.meta keyModifiedTime (.vInt now),
             encode_content (.vArr (prev2 ++ anns))⟩
          let store2 : StoreState :=
            ⟨store.projectContent, pyDictSet store.items ann_item_uid item2,
             store.nextUid⟩
          if metadata.isEmpty then .done store2 ann_item_uid
          else
            match update_gallery_tile store2.projectContent image_item_uid
                (create_tile_update none metadata [] [] []) with
            | .completed c => .done ⟨c, store2.items, store2.nextUid⟩ ann_item_uid
            | .raised e => .raised e
    | .val _ => .raised .typeError

/-- The scan of `_get_annotation_uid`'s loop (source lines 852-858) over the
decoded gallery: on a tile whose `id` matches, look `username` up in its
`annotationUID` dict — found breaks with the bound value, absent keeps
scanning.  A non-dict tile or `annotationUID` field raises. -/
def annot_uid_in_gallery : List JVal → LStr → LStr → Except PyErr (Option JVal)
  | [], _, _ => .ok none
  | tile :: tl, image_item_uid, username =>
    match tile with
    | .vObj ms =>
      match pyDictGet ms keyId with
      | none => .error .keyError
      | some v =>
        if jEqStr v image_item_uid then
          match pyDictGet ms keyAnnotationUID with
          | none => .error .keyError
          | some (.vObj au) =>
            match pyDictGet au username with
            | some uidv => .ok (some uidv)
            | none => annot_uid_in_gallery tl image_item_uid username
          | some _ => .error .typeError
        else annot_uid_in_gallery tl image_item_uid username
    | _ => .error .typeError

/-- Model of `_get_annotation_uid` (source lines 828-858, the name avoids a
reserved suffix): decode the gallery (errors here are NOT caught in this
function) and scan it. -/
def get_annot_uid (store : StoreState) (image_item_uid username : LStr) :
    Except PyErr (Option JVal) :=
  match decode_content store.projectContent with
  | .unicodeError => .error .unicodeDecodeError
  | .noContent => .error .typeError
  | .val (.vArr tiles) => annot_uid_in_gallery tiles image_item_uid username
  | .val _ => .error .typeError

/-- Caller-visible outcome of `upload_annotation`. -/
inductive UploadOutcome where
  | done (store : StoreState) (item_uid : LStr) : UploadOutcome
  | raised (e : PyErr) : UploadOutcome

/-- Model of `upload_annotation` (source lines 974-1012, the name avoids a
reserved suffix): look the (image, user) pair's annotation uid up; if
absent create a new annotation item, else update the existing one; return
the item uid.  A looked-up uid that is not a string would make the item
fetch fail and the subsequent attribute access raise (collapsed to
`AttributeError`; never the case for galleries the client writes). -/
def upload_annot (store : StoreState) (image_item_uid username : LStr)
    (anns : List JVal) (metadata : List (LStr × JVal)) (now : Int) :
    UploadOutcome :=
  match get_annot_uid store image_item_uid username with
  | .error e => .raised e
  | .ok none =>
    match create_annot_item store image_item_uid username anns metadata now with
    | (store1, uid) => .done store1 uid
  | .ok (some (.vStr u)) =>
    match update_annot_item store image_item_uid u anns metadata now with
    | .done store1 _ => .done store1 u
    | .raised e => .raised e
  | .ok (some _) => .raised .attributeError

/-! ## The session cache (§4.5)

`Project._fetch_project_data` (source lines 21-29): fetch the remote
collection and its item manager exactly when no project is cached or the
cached project's uid differs.  The remote backend is a function from uid to
collection; the item accessor is a handle determined by the fetched
collection, modelled as the collection itself. -/

/-- A remote collection: its uid and encrypted content. -/
structure Collection where
  uid : LStr
  content : List Nat

/-- The session's cache: the project and its item manager handle. -/
structure SessionState where
  project : Option Collection
  item_manager : Option Collection

/-- Model of `Project._fetch_project_data`: the state after the call, and
whether a remote fetch happened. -/
def fetch_project_data (remote : LStr → Collection) (st : SessionState)
    (project_uid : LStr) : SessionState × Bool :=
  match st.project with
  | none =>
    let p := remote project_uid
    (⟨some p, some p⟩, true)
  | some p =>
    if p.uid ≠ project_uid then
      let p2 := remote project_uid
      (⟨some p2, some p2⟩, true)
    else (st, false)

/-! ## Image data (§ image reading)

`get_image_data` (source lines 745-793) decodes the item's content into a
grid of images, then composes the channels of slice 0: one channel returns
that image; three channels merge plane `i` of image `i` into an RGB image;
any other count logs `"Images with N channels are not supported."` and
returns `None`.  The whole body is under `try/except Exception`, which
logs and returns `None`; in particular an empty grid's `image_data[0]`
raises `IndexError` into that handler. -/

/-- An RGB raster: its three colour planes. -/
structure RGBImage where
  r : List (List Nat)
  g : List (List Nat)
  b : List (List Nat)

/-- Caller-visible outcome of the image read: an image, `None`, or an
exception escaping (never produced — the body's `except Exception` logs and
returns `None`; the constructor exists to state the spec's thrown-error
reading). -/
inductive ImageOutcome where
  | image (img : RGBImage) : ImageOutcome
  | noImage : ImageOutcome
  | raised (e : PyErr) : ImageOutcome

/-- Whether an `ImageOutcome` is a thrown error. -/
def imageOutcomeRaised : ImageOutcome → Bool
  | .raised _ => true
  | _ => false

/-- The channel composition of `get_image_data` (source lines 777-790) on
slice 0's channel images: `num_channels == 1` returns `image_data[0][0]`;
`num_channels == 3` merges `[img.getchannel(i) for i, img in
enumerate(image_data[0])]` as R, G, B; any other count returns `None`. -/
def get_image_data_compose (images0 : List RGBImage) : ImageOutcome :=
  if images0.length = 1 then
    match images0.head? with
    | some img => .image img
    | none => .raised .indexError
  else if images0.length = 3 then
    match images0 with
    | [i0, i1, i2] => .image ⟨i0.r, i1.g, i2.b⟩
    | _ => .raised .typeError
  else .noImage

/-- Model of `get_image_data` from the decoded grid of images: an empty
grid's `image_data[0]` raises `IndexError`, caught by the handler. -/
def get_image_data_from (image_data : List (List RGBImage)) : ImageOutcome :=
  match image_data.head? with
  | none => .noImage
  | some images0 => get_image_data_compose images0

/-! ## Base64 image decoding (§ base64)

`base64_to_pil_image` (source lines 131-137) is
`Image.open(BytesIO(base64.b64decode(img_base64))).convert("RGB")` — no
data-URI header is stripped.  `base64.b64decode` with its default
`validate=False` discards every character outside the base64 alphabet
(`=` included in the discard-survivors as padding), then requires the
number of data characters plus padding to be a multiple of 4
(`binascii.Error: Incorrect padding` otherwise) and decodes 4-character
groups to 3 bytes, a 2- or 3-character leftover (consumed padding) to 1 or
2 bytes.  The PIL raster codec is an opaque parameter. -/

/-- Membership in the standard base64 alphabet. -/
def isB64Char (c : Char) : Bool :=
  (65 ≤ c.toNat && c.toNat ≤ 90) || (97 ≤ c.toNat && c.toNat ≤ 122) ||
    (48 ≤ c.toNat && c.toNat ≤ 57) || c = '+' || c = '/'

/-- The 6-bit value of a base64 alphabet character. -/
def b64CharVal (c : Char) : Nat :=
  if 65 ≤ c.toNat ∧ c.toNat ≤ 90 then c.toNat - 65
  else if 97 ≤ c.toNat ∧ c.toNat ≤ 122 then c.toNat - 71
  else if 48 ≤ c.toNat ∧ c.toNat ≤ 57 then c.toNat + 4
  else if c = '+' then 62
  else 63

/-- Decode base64 data characters: groups of four to three bytes, a
leftover of two or three (whose bits padding covered) to one or two. -/
def b64Quads : List Char → List Nat
  | a :: b :: c :: d :: rest =>
    let v := b64CharVal a * 262144 + b64CharVal b * 4096 +
      b64CharVal c * 64 + b64CharVal d
    (v / 65536) :: (v / 256 % 256) :: (v % 256) :: b64Quads rest
  | [a, b] => [b64CharVal a * 4 + b64CharVal b / 16]
  | [a, b, c] =>
    [b64CharVal a * 4 + b64CharVal b / 16,
     (b64CharVal b % 16) * 16 + b64CharVal c / 4]
  | _ => []

/-- Model of `base64.b64decode(s)` (default `validate=False`): discard
characters outside the alphabet, check data-plus-padding length mod 4,
decode.  `=` contributes to the length check by count only — faithful for
suffix padding and for `=`-free inputs, which are the shapes the theorems
below use (CPython additionally stops at interior padding). -/
def b64decode (s : LStr) : Except PyErr (List Nat) :=
  let data := s.filter isB64Char
  let pads := (s.filter (· = '=')).length
  if (data.length + pads) % 4 = 0 then .ok (b64Quads data)
  else .error .binasciiError

/-- Model of `base64_to_pil_image`, parametrised by the opaque PIL
open-and-convert raster codec. -/
def base64_to_pil_image (pilOpenConvert : List Nat → Except PyErr RGBImage)
    (img_base64 : LStr) : Except PyErr RGBImage :=
  (b64decode img_base64).bind pilOpenConvert

/-- The data-URI header `pil_to_base64_image` prepends to thumbnails
(source line 148). -/
def dataUriHeader : LStr := "data:image/png;base64,".data

/-! ## Lemmas: dictionaries, galleries and the annotation operations -/
def TileS.withAnnot (t : TileS) (username uid : LStr) : TileS :=
  { t with annotationUID := pyDictSet t.annotationUID username (.vStr uid),
           annotationComplete := pyDictSet t.annotationComplete username (.vBool false) }

theorem pyDictSet_self {α : Type} (d : List (LStr × α)) (k : LStr) (v : α)
    (h : pyDictGet d k = some v) : pyDictSet d k v = d := by
  induction d with
  | nil => simp [pyDictGet] at h
  | cons hd tl ih =>
    obtain ⟨k2, v2⟩ := hd
    by_cases hk : k2 = k
    · subst hk
      simp [pyDictGet] at h
      simp [pyDictSet, h]
    · simp [pyDictGet, hk] at h
      simp [pyDictSet, hk, ih h]

theorem pyDictSet_keys {α : Type} (d : List (LStr × α)) (k : LStr) (v w : α)
    (h : pyDictGet d k = some w) :
    (pyDictSet d k v).map Prod.fst = d.map Prod.fst := by
  induction d with
  | nil => simp [pyDictGet] at h
  | cons hd tl ih =>
    obtain ⟨k2, v2⟩ := hd
    by_cases hk : k2 = k
    · subst hk; simp [pyDictSet]
    · simp [pyDictGet, hk] at h
      simp [pyDictSet, hk, ih h]

theorem encode_content_inj (a b : JVal) (h : encode_content a = encode_content b) :
    a = b := by
  have ha := decode_encode_content a
  rw [h, decode_encode_content b] at ha
  injection ha with h2
  exact h2.symm

theorem getElem_len_append {α : Type} :
    ∀ (l : List α) (x : α) (rest : List α), (l ++ x :: rest)[l.length]? = some x
  | [], x, rest => by simp
  | a :: l, x, rest => by
    rw [List.cons_append, List.length_cons, List.getElem?_cons_succ]
    exact getElem_len_append l x rest

theorem set_len_append {α : Type} :
    ∀ (l : List α) (x y : α) (rest : List α),
      (l ++ x :: rest).set l.length y = l ++ y :: rest
  | [], x, y, rest => rfl
  | a :: l, x, y, rest => by
    simp [set_len_append l x y rest]

theorem find_tile_step (t : TileS) (rest : List JVal) (uid : LStr) :
    find_gallery_tile (t.toJson :: rest) uid =
      if jEqStr (.vStr t.id) uid then .ok (some 0)
      else (find_gallery_tile rest uid).map (Option.map (· + 1)) := rfl

theorem find_tile_at (t : TileS) (rest : List JVal) :
    find_gallery_tile (t.toJson :: rest) t.id = .ok (some 0) := by
  rw [find_tile_step, if_pos]
  simp [jEqStr]

theorem find_tile_ne (t : TileS) (rest : List JVal) (uid : LStr) (h : t.id ≠ uid) :
    find_gallery_tile (t.toJson :: rest) uid =
      (find_gallery_tile rest uid).map (Option.map (· + 1)) := by
  rw [find_tile_step, if_neg]
  simp [jEqStr, h]

theorem find_tile_pre (pre : List TileS) (t : TileS) (rest : List JVal)
    (hpre : ∀ t2 ∈ pre, t2.id ≠ t.id) :
    find_gallery_tile (pre.map TileS.toJson ++ t.toJson :: rest) t.id =
      .ok (some pre.length) := by
  induction pre with
  | nil => simpa using find_tile_at t rest
  | cons p pre ih =>
    have hp : p.id ≠ t.id := hpre p (List.mem_cons_self p pre)
    rw [List.map_cons, List.cons_append, find_tile_ne p _ _ hp,
      ih (fun t2 ht2 => hpre t2 (List.mem_cons_of_mem p ht2))]
    rfl

theorem getElem_map_len (pre : List TileS) (x : JVal) (rest : List JVal) :
    (pre.map TileS.toJson ++ x :: rest)[pre.length]? = some x := by
  have h := getElem_len_append (pre.map TileS.toJson) x rest
  simpa using h

theorem set_map_len (pre : List TileS) (x y : JVal) (rest : List JVal) :
    (pre.map TileS.toJson ++ x :: rest).set pre.length y =
      pre.map TileS.toJson ++ y :: rest := by
  have h := set_len_append (pre.map TileS.toJson) x y rest
  simpa using h

theorem update_gallery_tile_found (pre post : List TileS) (t t2 : TileS)
    (tile_data : List (LStr × JVal))
    (hpre : ∀ t3 ∈ pre, t3.id ≠ t.id)
    (hup : update_tile t.fields tile_data = .ok t2.fields) :
    update_gallery_tile (galleryBytes (pre ++ t :: post)) t.id tile_data =
      .completed (galleryBytes (pre ++ t2 :: post)) := by
  unfold update_gallery_tile
  rw [show galleryBytes (pre ++ t :: post) =
        encode_content (.vArr ((pre ++ t :: post).map TileS.toJson)) from rfl,
      decode_encode_content]
  simp only [List.map_append, List.map_cons]
  simp only [bind, Except.bind]
  rw [find_tile_pre pre t _ hpre]
  simp only [bind, Except.bind]
  rw [getElem_map_len]
  simp only [TileS.toJson]
  rw [hup]
  simp only [bind, Except.bind]
  rw [set_map_len]
  simp [galleryBytes, TileS.toJson]

theorem find_tile_none (tiles : List TileS) (uid : LStr)
    (h : ∀ t2 ∈ tiles, t2.id ≠ uid) :
    find_gallery_tile (tiles.map TileS.toJson) uid = .ok none := by
  induction tiles with
  | nil => rfl
  | cons p tl ih =>
    rw [List.map_cons, find_tile_ne p _ _ (h p (List.mem_cons_self p tl)),
      ih (fun t2 ht2 => h t2 (List.mem_cons_of_mem p ht2))]
    rfl

theorem update_gallery_tile_no_match (tiles : List TileS) (uid : LStr)
    (tile_data : List (LStr × JVal))
    (h : ∀ t2 ∈ tiles, t2.id ≠ uid) :
    update_gallery_tile (galleryBytes tiles) uid tile_data =
      .completed (galleryBytes tiles) := by
  unfold update_gallery_tile
  rw [show galleryBytes tiles =
        encode_content (.vArr (tiles.map TileS.toJson)) from rfl,
      decode_encode_content]
  simp only [bind, Except.bind]
  rw [find_tile_none tiles uid h]

theorem annot_uid_step (t : TileS) (rest : List JVal) (uid username : LStr) :
    annot_uid_in_gallery (t.toJson :: rest) uid username =
      if jEqStr (.vStr t.id) uid then
        match pyDictGet t.annotationUID username with
        | some uidv => .ok (some uidv)
        | none => annot_uid_in_gallery rest uid username
      else annot_uid_in_gallery rest uid username := rfl

theorem annot_uid_cons_ne (t : TileS) (rest : List JVal) (uid username : LStr)
    (h : t.id ≠ uid) :
    annot_uid_in_gallery (t.toJson :: rest) uid username =
      annot_uid_in_gallery rest uid username := by
  have hc : ¬ (jEqStr (.vStr t.id) uid = true) := by simp [jEqStr, h]
  rw [annot_uid_step, if_neg hc]

theorem annot_uid_at (t : TileS) (rest : List JVal) (username : LStr) :
    annot_uid_in_gallery (t.toJson :: rest) t.id username =
      match pyDictGet t.annotationUID username with
      | some uidv => .ok (some uidv)
      | none => annot_uid_in_gallery rest t.id username := by
  have hc : jEqStr (.vStr t.id) t.id = true := by simp [jEqStr]
  rw [annot_uid_step, if_pos hc]

theorem annot_uid_skip (pre : List TileS) (rest : List JVal) (uid username : LStr)
    (hpre : ∀ t2 ∈ pre, t2.id ≠ uid) :
    annot_uid_in_gallery (pre.map TileS.toJson ++ rest) uid username =
      annot_uid_in_gallery rest uid username := by
  induction pre with
  | nil => rfl
  | cons p tl ih =>
    rw [List.map_cons, List.cons_append,
      annot_uid_cons_ne p _ _ _ (hpre p (List.mem_cons_self p tl)),
      ih (fun t2 ht2 => hpre t2 (List.mem_cons_of_mem p ht2))]

theorem annot_uid_none (tiles : List TileS) (uid username : LStr)
    (h : ∀ t2 ∈ tiles, t2.id ≠ uid) :
    annot_uid_in_gallery (tiles.map TileS.toJson) uid username = .ok none := by
  induction tiles with
  | nil => rfl
  | cons p tl ih =>
    rw [List.map_cons, annot_uid_cons_ne p _ _ _ (h p (List.mem_cons_self p tl)),
      ih (fun t2 ht2 => h t2 (List.mem_cons_of_mem p ht2))]

theorem get_annot_uid_gallery (pre post : List TileS) (t : TileS)
    (store : StoreState) (username : LStr)
    (hcontent : store.projectContent = galleryBytes (pre ++ t :: post))
    (hpre : ∀ t2 ∈ pre, t2.id ≠ t.id)
    (hpost : ∀ t2 ∈ post, t2.id ≠ t.id) :
    get_annot_uid store t.id username =
      match pyDictGet t.annotationUID username with
      | some uidv => .ok (some uidv)
      | none => .ok none := by
  unfold get_annot_uid
  rw [hcontent, show galleryBytes (pre ++ t :: post) =
        encode_content (.vArr ((pre ++ t :: post).map TileS.toJson)) from rfl,
      decode_encode_content]
  simp only [List.map_append, List.map_cons]
  rw [annot_uid_skip pre _ _ _ hpre, annot_uid_at]
  cases hau : pyDictGet t.annotationUID username with
  | some v => rfl
  | none =>
    simp only []
    exact annot_uid_none post t.id username hpost

theorem update_tile_metadata_only (t : TileS) (metadata : List (LStr × JVal)) :
    update_tile t.fields (create_tile_update none metadata [] [] []) =
      .ok t.fields := rfl

theorem update_tile_annot_patch (t : TileS) (metadata : List (LStr × JVal))
    (username uid : LStr) :
    update_tile t.fields (create_tile_update none metadata
        [(username, .vStr uid)] [] [(username, .vBool false)]) =
      .ok (t.withAnnot username uid).fields := rfl

theorem update_annot_item_eval (store : StoreState) (img uid : LStr)
    (item : ItemData) (prior anns : List JVal) (lastA : JVal) (b : Bool) (now : Int)
    (hitem : pyDictGet store.items uid = some item)
    (hcontent : item.content = encode_content (.vArr prior))
    (hlast : prior.getLast? = some lastA)
    (hempty : is_empty_annot lastA = some b) :
    update_annot_item store img uid anns [] now =
      .done ⟨store.projectContent,
             pyDictSet store.items uid
               ⟨pyDictSet item.meta keyModifiedTime (.vInt now),
                encode_content (.vArr (prior.dropLast ++ anns))⟩,
             store.nextUid⟩ uid := by
  unfold update_annot_item get_project_item
  rw [hitem]
  dsimp only []
  rw [hcontent, decode_encode_content]
  dsimp only []
  rw [hlast]
  dsimp only []
  rw [hempty]
  dsimp only []
  have hlen : (0 &&& b.toNat) < prior.length := by
    rw [Nat.zero_and]
    cases prior with
    | nil => simp at hlast
    | cons a tl => simp
  rw [if_pos hlen]
  rfl

theorem create_annot_item_eval (pre post : List TileS) (t : TileS)
    (store : StoreState) (username : LStr) (anns : List JVal)
    (metadata : List (LStr × JVal)) (now : Int)
    (hcontent : store.projectContent = galleryBytes (pre ++ t :: post))
    (hpre : ∀ t2 ∈ pre, t2.id ≠ t.id) :
    create_annot_item store t.id username anns metadata now =
      (⟨galleryBytes (pre ++ t.withAnnot username (freshUid store.nextUid) :: post),
        store.items ++ [(freshUid store.nextUid,
          ⟨annot_item_meta now, encode_content (.vArr anns)⟩)],
        store.nextUid + 1⟩, freshUid store.nextUid) := by
  unfold create_annot_item
  simp only []
  rw [hcontent, update_gallery_tile_found pre post t
    (t.withAnnot username (freshUid store.nextUid)) _ hpre
    (update_tile_annot_patch t metadata username (freshUid store.nextUid))]

theorem update_annot_item_gallery_eval (pre post : List TileS) (t : TileS)
    (store : StoreState) (uid : LStr) (item : ItemData) (prior anns : List JVal)
    (lastA : JVal) (b : Bool) (metadata : List (LStr × JVal)) (now : Int)
    (hcontent : store.projectContent = galleryBytes (pre ++ t :: post))
    (hpre : ∀ t2 ∈ pre, t2.id ≠ t.id)
    (hitem : pyDictGet store.items uid = some item)
    (hpriorc : item.content = encode_content (.vArr prior))
    (hlast : prior.getLast? = some lastA)
    (hempty : is_empty_annot lastA = some b) :
    update_annot_item store t.id uid anns metadata now =
      .done ⟨store.projectContent,
             pyDictSet store.items uid
               ⟨pyDictSet item.meta keyModifiedTime (.vInt now),
                encode_content (.vArr (prior.dropLast ++ anns))⟩,
             store.nextUid⟩ uid := by
  unfold update_annot_item get_project_item
  rw [hitem]
  dsimp only []
  rw [hpriorc, decode_encode_content]
  dsimp only []
  rw [hlast]
  dsimp only []
  rw [hempty]
  dsimp only []
  have hlen : (0 &&& b.toNat) < prior.length := by
    rw [Nat.zero_and]
    cases prior with
    | nil => simp at hlast
    | cons a tl => simp
  rw [if_pos hlen]
  by_cases hm : metadata.isEmpty
  · rw [if_pos hm]
  · rw [if_neg hm]
    rw [hcontent, update_gallery_tile_found pre post t t _ hpre
      (update_tile_metadata_only t metadata)]

theorem upload_annot_create (pre post : List TileS) (t : TileS)
    (store : StoreState) (username : LStr) (anns : List JVal)
    (metadata : List (LStr × JVal)) (now : Int)
    (hcontent : store.projectContent = galleryBytes (pre ++ t :: post))
    (hpre : ∀ t2 ∈ pre, t2.id ≠ t.id)
    (hpost : ∀ t2 ∈ post, t2.id ≠ t.id)
    (habsent : pyDictGet t.annotationUID username = none) :
    upload_annot store t.id username anns metadata now =
      .done ⟨galleryBytes (pre ++ t.withAnnot username (freshUid store.nextUid) :: post),
             store.items ++ [(freshUid store.nextUid,
               ⟨annot_item_meta now, encode_content (.vArr anns)⟩)],
             store.nextUid + 1⟩ (freshUid store.nextUid) := by
  unfold upload_annot
  rw [get_annot_uid_gallery pre post t store username hcontent hpre hpost, habsent]
  dsimp only []
  rw [create_annot_item_eval pre post t store username anns metadata now hcontent hpre]

theorem upload_annot_update (pre post : List TileS) (t : TileS)
    (store : StoreState) (username u : LStr) (item : ItemData)
    (prior anns : List JVal) (lastA : JVal) (b : Bool)
    (metadata : List (LStr × JVal)) (now : Int)
    (hcontent : store.projectContent = galleryBytes (pre ++ t :: post))
    (hpre : ∀ t2 ∈ pre, t2.id ≠ t.id)
    (hpost : ∀ t2 ∈ post, t2.id ≠ t.id)
    (hpresent : pyDictGet t.annotationUID username = some (.vStr u))
    (hitem : pyDictGet store.items u = some item)
    (hpriorc : item.content = encode_content (.vArr prior))
    (hlast : prior.getLast? = some lastA)
    (hempty : is_empty_annot lastA = some b) :
    upload_annot store t.id username anns metadata now =
      .done ⟨store.projectContent,
             pyDictSet store.items u
               ⟨pyDictSet item.meta keyModifiedTime (.vInt now),
                encode_content (.vArr (prior.dropLast ++ anns))⟩,
             store.nextUid⟩ u := by
  unfold upload_annot
  rw [get_annot_uid_gallery pre post t store username hcontent hpre hpost, hpresent]
  dsimp only []
  rw [update_annot_item_gallery_eval pre post t store u item prior anns lastA b
    metadata now hcontent hpre hitem hpriorc hlast hempty]

theorem isVNull_iff (x : JVal) : isVNull x = true ↔ x = JVal.vNull := by
  cases x <;> simp [isVNull]

theorem is_empty_annot_val (toolbox : LStr) (labels : List LStr) (coords : List JVal)
    (sti : JVal) (closed : Bool) (x y bottom_right bsti : JVal)
    (strokes : List JVal) (params : List (LStr × JVal)) :
    is_empty_annot (create_annot toolbox labels (create_spline coords sti closed)
        (create_bounding_box (create_xypoint x y) bottom_right bsti) strokes params) =
      some (decide (coords.length = 0) && decide (strokes.length = 0) && isVNull x) := rfl

theorem get_image_data_counts_plain (imgs : List RGBImage) :
    get_image_data_compose imgs =
      (match imgs with
       | [i] => .image i
       | [i0, i1, i2] => .image ⟨i0.r, i1.g, i2.b⟩
       | _ => .noImage) := by
  match imgs with
  | [] => rfl
  | [a] => rfl
  | [a, b] => rfl
  | [a, b, c] => rfl
  | a :: b :: c :: d :: tl =>
    have h1 : ¬((a :: b :: c :: d :: tl).length = 1) := by simp
    have h3 : ¬((a :: b :: c :: d :: tl).length = 3) := by
      simp only [List.length_cons]
      omega
    unfold get_image_data_compose
    rw [if_neg h1, if_neg h3]

theorem fetch_project_data_cache_plain (remote : LStr → Collection)
    (st : SessionState) (uid : LStr) (h : (remote uid).uid = uid) :
    ((fetch_project_data remote st uid).2 = true ↔
      (st.project = none ∨ ∃ p, st.project = some p ∧ p.uid ≠ uid)) ∧
    fetch_project_data remote (fetch_project_data remote st uid).1 uid =
      ((fetch_project_data remote st uid).1, false) ∧
    (∀ uid2, uid2 ≠ uid →
      (fetch_project_data remote (fetch_project_data remote st uid).1 uid2).2 = true ∧
      (fetch_project_data remote (fetch_project_data remote st uid).1 uid2).1 =
        ⟨some (remote uid2), some (remote uid2)⟩) := by
  cases hp : st.project with
  | none =>
    refine ⟨by simp [fetch_project_data, hp], ?_, ?_⟩
    · simp [fetch_project_data, hp, h]
    · intro uid2 h2
      constructor
      · simp [fetch_project_data, hp, h]
        rw [if_neg (fun he => h2 he.symm)]
      · simp [fetch_project_data, hp, h]
        rw [if_neg (fun he => h2 he.symm)]
  | some p =>
    by_cases hpu : p.uid = uid
    · refine ⟨by simp [fetch_project_data, hp, hpu], ?_, ?_⟩
      · simp [fetch_project_data, hp, hpu]
      · intro uid2 h2
        constructor
        · simp [fetch_project_data, hp, hpu]
          rw [if_neg (fun he => h2 he.symm)]
        · simp [fetch_project_data, hp, hpu]
          rw [if_neg (fun he => h2 he.symm)]
    · refine ⟨by simp [fetch_project_data, hp, hpu], ?_, ?_⟩
      · simp [fetch_project_data, hp, hpu, h]
      · intro uid2 h2
        constructor
        · simp [fetch_project_data, hp, hpu, h]
          rw [if_neg (fun he => h2 he.symm)]
        · simp [fetch_project_data, hp, hpu, h]
          rw [if_neg (fun he => h2 he.symm)]

theorem b64_no_pads (s : LStr) (h : ∀ c ∈ s, isB64Char c = true) :
    s.filter (· = '=') = [] := by
  rw [List.filter_eq_nil_iff]
  intro c hc
  have hb := h c hc
  simp only [decide_eq_true_eq]
  intro he
  rw [he] at hb
  simp [isB64Char] at hb

theorem b64decode_clean (s : LStr) (h : ∀ c ∈ s, isB64Char c = true)
    (hlen : s.length % 4 = 0) : b64decode s = .ok (b64Quads s) := by
  unfold b64decode
  rw [List.filter_eq_self.mpr h, b64_no_pads s h, if_pos]
  simp [hlen]

theorem b64decode_with_header (s : LStr) (h : ∀ c ∈ s, isB64Char c = true)
    (hlen : s.length % 4 = 0) :
    b64decode (dataUriHeader ++ s) = .error .binasciiError := by
  unfold b64decode
  rw [List.filter_append, List.filter_append,
    show dataUriHeader.filter isB64Char = "dataimage/pngbase64".data from rfl,
    show dataUriHeader.filter (· = '=') = [] from rfl,
    List.filter_eq_self.mpr h, b64_no_pads s h, if_neg]
  simp only [List.length_append, List.length_nil]
  rw [show ("dataimage/pngbase64".data).length = 19 from rfl]
  omega

/-! ## Concrete demonstration values for witnesses and counterexamples -/

/-- A non-empty demo annotation: one spline point. -/
def annNonempty : JVal :=
  create_annot ("spline".data) []
    (create_spline [create_xypoint (.vInt 1) (.vInt 2)] (.vObj []) false)
    (create_bounding_box (create_xypoint .vNull .vNull)
      (create_xypoint .vNull .vNull) (.vObj []))
    [] []

/-- A second non-empty demo annotation. -/
def annOther : JVal :=
  create_annot ("spline".data) []
    (create_spline [create_xypoint (.vInt 3) (.vInt 4)] (.vObj []) false)
    (create_bounding_box (create_xypoint .vNull .vNull)
      (create_xypoint .vNull .vNull) (.vObj []))
    [] []

/-- A demo gallery tile with uid `t1` and no annotations. -/
def tileDemo : TileS := ⟨"t1".data, "th".data, [], [], "t1".data, [], [], []⟩

/-- A demo store: a one-tile gallery and no items. -/
def storeDemo : StoreState := ⟨galleryBytes [tileDemo], [], 0⟩

/-- A demo item uid. -/
def uidDemo : LStr := "i7".data

/-- A demo annotation item holding the record `[annNonempty]`. -/
def itemDemo : ItemData := ⟨annot_item_meta 3, encode_content (.vArr [annNonempty])⟩

/-- A probe raster codec that records the bytes it was given. -/
def pilProbe : List Nat → Except PyErr RGBImage := fun bs => .ok ⟨[bs], [], []⟩

/-- A demo remote backend whose collection uid echoes the request. -/
def remoteDemo : LStr → Collection := fun u => ⟨u, []⟩

/-- A demo one-pixel image. -/
def imgDemo : RGBImage := ⟨[[1]], [[2]], [[3]]⟩

/-! ## The claims -/

/-- C1: the spec says `_update_annotation_item` drops the prior record's
last element if and only if that element is empty, so that uploading
`[ann1]` then `[ann2]` (neither empty) stores `[ann1, ann2]`.  In the code
the guard `len(prev_annotations) > 0 & self.is_empty_annotation(...)`
parses as `len(prev) > (0 & ...)`, i.e. `len(prev) > 0`, so the last
element of any non-empty prior record is dropped: updating a record
`[a1]` with `[a2]` stores exactly `[a2]`, which differs from the
`[a1, a2]` the spec requires. -/
theorem update_annot_item_drops_nonempty_last (store : StoreState)
    (img uid : LStr) (item : ItemData) (a1 a2 : JVal) (now : Int)
    (hitem : pyDictGet store.items uid = some item)
    (hcontent : item.content = encode_content (.vArr [a1]))
    (hnonempty : is_empty_annot a1 = some false) :
    update_annot_item store img uid [a2] [] now =
      .done ⟨store.projectContent,
             pyDictSet store.items uid
               ⟨pyDictSet item.meta keyModifiedTime (.vInt now),
                encode_content (.vArr [a2])⟩,
             store.nextUid⟩ uid ∧
    encode_content (.vArr [a2]) ≠ encode_content (.vArr [a1, a2]) := by
  constructor
  · have h := update_annot_item_eval store img uid item [a1] [a2] a1 false now
      hitem hcontent rfl hnonempty
    simpa using h
  · intro hEq
    have h2 := encode_content_inj _ _ hEq
    simp at h2

/-- C1 witness: a concrete store with prior record `[annNonempty]`. -/
theorem update_annot_item_drops_nonempty_last_wit :
    update_annot_item ⟨[], [(uidDemo, itemDemo)], 0⟩ ("t1".data) uidDemo
        [annOther] [] 9 =
      .done ⟨[],
             pyDictSet [(uidDemo, itemDemo)] uidDemo
               ⟨pyDictSet (annot_item_meta 3) keyModifiedTime (.vInt 9),
                encode_content (.vArr [annOther])⟩,
             0⟩ uidDemo :=
  (update_annot_item_drops_nonempty_last ⟨[], [(uidDemo, itemDemo)], 0⟩
    ("t1".data) uidDemo itemDemo annNonempty annOther 9 rfl rfl rfl).1

/-- C2: `upload_annotation` branches solely on the presence of
`annotationUID[username]` in the image's gallery tile.  Absent: a new
annotation item is created (metadata `isComplete=false`, content the
encoded annotations), the tile is patched with
`annotationUID[username] = new uid` and
`annotationComplete[username] = false`, and the new uid is returned.
Present with value `u`: the item `u` is updated in place — the item-uid
key set is unchanged, so no second item is created — and `u` is
returned. -/
theorem upload_annot_create_vs_update_branch (pre post : List TileS)
    (t : TileS) (store : StoreState) (username : LStr) (anns : List JVal)
    (metadata : List (LStr × JVal)) (now : Int)
    (hcontent : store.projectContent = galleryBytes (pre ++ t :: post))
    (hpre : ∀ t2 ∈ pre, t2.id ≠ t.id)
    (hpost : ∀ t2 ∈ post, t2.id ≠ t.id) :
    (pyDictGet t.annotationUID username = none →
      upload_annot store t.id username anns metadata now =
        .done ⟨galleryBytes
                 (pre ++ t.withAnnot username (freshUid store.nextUid) :: post),
               store.items ++ [(freshUid store.nextUid,
                 ⟨annot_item_meta now, encode_content (.vArr anns)⟩)],
               store.nextUid + 1⟩ (freshUid store.nextUid)) ∧
    (∀ u item prior lastA b,
      pyDictGet t.annotationUID username = some (.vStr u) →
      pyDictGet store.items u = some item →
      item.content = encode_content (.vArr prior) →
      prior.getLast? = some lastA →
      is_empty_annot lastA = some b →
      upload_annot store t.id username anns metadata now =
        .done ⟨store.projectContent,
               pyDictSet store.items u
                 ⟨pyDictSet item.meta keyModifiedTime (.vInt now),
                  encode_content (.vArr (prior.dropLast ++ anns))⟩,
               store.nextUid⟩ u ∧
      (pyDictSet store.items u
          ⟨pyDictSet item.meta keyModifiedTime (.vInt now),
           encode_content (.vArr (prior.dropLast ++ anns))⟩).map Prod.fst =
        store.items.map Prod.fst) := by
  constructor
  · intro habsent
    exact upload_annot_create pre post t store username anns metadata now
      hcontent hpre hpost habsent
  · intro u item prior lastA b hpresent hitem hpriorc hlast hempty
    exact ⟨upload_annot_update pre post t store username u item prior anns
        lastA b metadata now hcontent hpre hpost hpresent hitem hpriorc
        hlast hempty,
      pyDictSet_keys store.items u _ item hitem⟩

/-- C2 witness: the create branch on a concrete one-tile store. -/
theorem upload_annot_create_vs_update_branch_wit :
    upload_annot storeDemo ("t1".data) ("u".data) [annNonempty] [] 5 =
      .done ⟨galleryBytes
               ([] ++ TileS.withAnnot tileDemo ("u".data) (freshUid 0) :: []),
             [] ++ [(freshUid 0,
               ⟨annot_item_meta 5, encode_content (.vArr [annNonempty])⟩)],
             1⟩ (freshUid 0) :=
  (upload_annot_create_vs_update_branch [] [] tileDemo storeDemo ("u".data)
    [annNonempty] [] 5 rfl (by simp) (by simp)).1 rfl

/-- C3: the spec says a tile patch built by `_create_tile_update` with
`metadata={a:1}` merges into the tile's `fileInfo`.  In the code the patch
dictionary carries the key `"fileInfo"`, while the inner `update_tile`
expects the keyword `metadata` and collects unknown keywords in
`**kwargs`, so the fileInfo patch is silently dropped: the tile — and the
whole gallery content — is unchanged for every metadata patch. -/
theorem update_gallery_tile_fileinfo_patch_dropped (t : TileS)
    (metadata : List (LStr × JVal)) :
    update_tile t.fields (create_tile_update none metadata [] [] []) =
      .ok t.fields ∧
    update_gallery_tile (galleryBytes [t]) t.id
        (create_tile_update none metadata [] [] []) =
      .completed (galleryBytes [t]) := by
  refine ⟨update_tile_metadata_only t metadata, ?_⟩
  have h := update_gallery_tile_found [] [] t t
    (create_tile_update none metadata [] [] []) (by simp)
    (update_tile_metadata_only t metadata)
  simpa using h

/-- C4: `is_empty_annotation` returns true iff the spline's coordinate
list is empty, the brushStrokes list is empty, and the boundingBox
top-left x is None; failing any one condition makes it false. -/
theorem is_empty_annot_iff_three_conditions (toolbox : LStr)
    (labels : List LStr) (coords : List JVal) (sti : JVal) (closed : Bool)
    (x y bottom_right bsti : JVal) (strokes : List JVal)
    (params : List (LStr × JVal)) :
    is_empty_annot (create_annot toolbox labels
        (create_spline coords sti closed)
        (create_bounding_box (create_xypoint x y) bottom_right bsti)
        strokes params) = some true ↔
      (coords = [] ∧ strokes = [] ∧ x = JVal.vNull) := by
  rw [is_empty_annot_val]
  simp [isVNull_iff, List.length_eq_zero, and_assoc]

/-- C5 (amended): patching a gallery that contains no tile with the
requested id does NOT raise — no `TileNotFoundError` class exists and the
body's `except Exception` swallows the `TypeError` from indexing with
`None` — the operation completes silently with the content unchanged. -/
theorem update_gallery_tile_missing_tile_silent (tiles : List TileS)
    (uid : LStr) (tile_data : List (LStr × JVal))
    (h : ∀ t2 ∈ tiles, t2.id ≠ uid) :
    update_gallery_tile (galleryBytes tiles) uid tile_data =
      .completed (galleryBytes tiles) ∧
    tileOutcomeRaised (update_gallery_tile (galleryBytes tiles) uid tile_data) =
      false := by
  have h2 := update_gallery_tile_no_match tiles uid tile_data h
  exact ⟨h2, by rw [h2]; rfl⟩

/-- C5 witness: a concrete one-tile gallery and a missing uid. -/
theorem update_gallery_tile_missing_tile_silent_wit :
    update_gallery_tile (galleryBytes [tileDemo]) ("yy".data)
        (create_tile_update none [] [] [] []) =
      .completed (galleryBytes [tileDemo]) :=
  (update_gallery_tile_missing_tile_silent [tileDemo] ("yy".data)
    (create_tile_update none [] [] [] [])
    (by intro t2 ht2; simp at ht2; subst ht2; decide)).1

/-- C5 counterexample: at a concrete gallery without the requested tile,
the patch completes (nothing is raised to the caller) with the content
unchanged, refuting the claimed thrown `TileNotFoundError`. -/
theorem update_gallery_tile_missing_tile_cex :
    tileOutcomeRaised (update_gallery_tile (galleryBytes [tileDemo])
        ("zz".data) (create_tile_update none [] [] [] [])) = false ∧
    update_gallery_tile (galleryBytes [tileDemo]) ("zz".data)
        (create_tile_update none [] [] [] []) =
      .completed (galleryBytes [tileDemo]) := by
  have h := update_gallery_tile_no_match [tileDemo] ("zz".data)
    (create_tile_update none [] [] [] [])
    (by intro t2 ht2; simp at ht2; subst ht2; decide)
  exact ⟨by rw [h]; rfl, h⟩

/-- C6: for every JSON-compatible value `v`, decoding the canonical
compact encoding of `v` yields `v` back. -/
theorem content_codec_roundtrip (v : JVal) :
    decode_content (encode_content v) = DecodeOutcome.val v :=
  decode_encode_content v

/-- C7 (amended): reading an image item's data returns the single image
for one channel and the R,G,B-merged image for three channels, but any
other channel count — 2, 4, or an empty item — yields `None` (the error is
logged); no `UnsupportedChannelCountError` exists and nothing is raised to
the caller. -/
theorem get_image_data_channel_cases (image_data : List (List RGBImage)) :
    get_image_data_from image_data =
      (match image_data.head? with
       | some [i] => ImageOutcome.image i
       | some [i0, i1, i2] => ImageOutcome.image ⟨i0.r, i1.g, i2.b⟩
       | _ => ImageOutcome.noImage) ∧
    imageOutcomeRaised (get_image_data_from image_data) = false := by
  have hmain : get_image_data_from image_data =
      (match image_data.head? with
       | some [i] => ImageOutcome.image i
       | some [i0, i1, i2] => ImageOutcome.image ⟨i0.r, i1.g, i2.b⟩
       | _ => ImageOutcome.noImage) := by
    unfold get_image_data_from
    cases hd : image_data.head? with
    | none => rfl
    | some imgs =>
      match imgs with
      | [] => rfl
      | [a] => rfl
      | [a, b] => rfl
      | [a, b, c] => rfl
      | a :: b :: c :: d :: tl =>
        have h1 : ¬((a :: b :: c :: d :: tl).length = 1) := by simp
        have h3 : ¬((a :: b :: c :: d :: tl).length = 3) := by
          simp only [List.length_cons]
          omega
        show get_image_data_compose (a :: b :: c :: d :: tl) = _
        unfold get_image_data_compose
        rw [if_neg h1, if_neg h3]
  refine ⟨hmain, ?_⟩
  rw [hmain]
  cases hd : image_data.head? with
  | none => rfl
  | some imgs =>
    match imgs with
    | [] => rfl
    | [a] => rfl
    | [a, b] => rfl
    | [a, b, c] => rfl
    | a :: b :: c :: d :: tl => rfl

/-- C7 counterexample: a concrete two-channel item yields `None`
(`noImage`), and nothing is raised, refuting the claimed
`UnsupportedChannelCountError`. -/
theorem get_image_data_two_channels_cex :
    get_image_data_from [[imgDemo, imgDemo]] = ImageOutcome.noImage ∧
    imageOutcomeRaised (get_image_data_from [[imgDemo, imgDemo]]) = false :=
  ⟨rfl, rfl⟩

/-- C8: the session refetches exactly when no project is cached or the
cached uid differs; under an honest remote (the fetched collection carries
the requested uid) a second call with the same uid leaves the cache
unchanged and fetches nothing, and a call with a different uid fetches and
replaces both the project and its item manager. -/
theorem fetch_project_data_caching (remote : LStr → Collection)
    (st : SessionState) (uid : LStr) (h : (remote uid).uid = uid) :
    ((fetch_project_data remote st uid).2 = true ↔
      (st.project = none ∨ ∃ p, st.project = some p ∧ p.uid ≠ uid)) ∧
    fetch_project_data remote (fetch_project_data remote st uid).1 uid =
      ((fetch_project_data remote st uid).1, false) ∧
    (∀ uid2, uid2 ≠ uid →
      (fetch_project_data remote (fetch_project_data remote st uid).1 uid2).2 =
        true ∧
      (fetch_project_data remote (fetch_project_data remote st uid).1 uid2).1 =
        ⟨some (remote uid2), some (remote uid2)⟩) :=
  fetch_project_data_cache_plain remote st uid h

/-- C8 witness: a fresh session against an echoing remote fetches once
for `p` and not again. -/
theorem fetch_project_data_caching_wit :
    fetch_project_data remoteDemo
        (fetch_project_data remoteDemo ⟨none, none⟩ ("p".data)).1 ("p".data) =
      ((fetch_project_data remoteDemo ⟨none, none⟩ ("p".data)).1, false) :=
  (fetch_project_data_caching remoteDemo ⟨none, none⟩ ("p".data) rfl).2.1

/-- C9 (amended): only a JSON parse failure is the reported, non-fatal
path of `_decode_content` — bytes that decode as UTF-8 but are not valid
JSON yield `None` ("no usable content") with no exception escaping.
(Bytes that are not valid UTF-8 instead raise `UnicodeDecodeError` out of
the function, see the counterexample.) -/
theorem decode_content_reports_json_failure (b : List Nat) (s : LStr)
    (h1 : utf8Decode b = some s) (h2 : jsonLoads s = none) :
    decode_content b = DecodeOutcome.noContent := by
  unfold decode_content
  rw [h1]
  dsimp only []
  rw [h2]

/-- C9 witness: the byte `0x74` (`"t"`) is valid UTF-8 but not JSON. -/
theorem decode_content_reports_json_failure_wit :
    decode_content [116] = DecodeOutcome.noContent :=
  decode_content_reports_json_failure [116] (['t']) rfl rfl

/-- The encoder never produces the byte string `[0xff]`: its output is
all-ASCII and starts with the rendered value's first character. -/
theorem encode_content_ne_ff (v : JVal) : encode_content v ≠ [255] := by
  intro h
  obtain ⟨c, t, hct, _, _, _⟩ := dumpVal_head v
  have hmap : encode_content v = (dumpVal v).map Char.toNat := by
    rw [encode_content, utf8Encode_ascii (dumpVal v) (dumpVal_ascii v)]
  rw [hmap, hct, List.map_cons] at h
  have hascii : c.toNat < 0x80 :=
    dumpVal_ascii v c (by rw [hct]; exact List.mem_cons_self c t)
  simp only [List.cons.injEq] at h
  omega

/-- C9 counterexample: the byte string `[0xff]` is not a well-formed
encoding of any JSON value, yet decoding it raises `UnicodeDecodeError`
out of `_decode_content` — the caller does not receive the claimed null
result. -/
theorem decode_content_invalid_utf8_cex :
    (∀ v : JVal, encode_content v ≠ [255]) ∧
    decode_content [255] = DecodeOutcome.unicodeError :=
  ⟨fun v => encode_content_ne_ff v, rfl⟩

/-- C10 (amended): `base64_to_pil_image` does NOT strip a data-URI
header: a bare alphabet-only payload of length divisible by 4 reaches the
raster codec with its decoded bytes, while the same payload prefixed with
`data:image/png;base64,` fails with `binascii.Error` (the header's
alphabet characters corrupt the stream and break the length check). -/
theorem base64_requires_bare_payload
    (pil : List Nat → Except PyErr RGBImage) (s : LStr)
    (h : ∀ c ∈ s, isB64Char c = true) (hlen : s.length % 4 = 0) :
    base64_to_pil_image pil s = pil (b64Quads s) ∧
    base64_to_pil_image pil (dataUriHeader ++ s) =
      .error .binasciiError := by
  unfold base64_to_pil_image
  rw [b64decode_clean s h hlen, b64decode_with_header s h hlen]
  exact ⟨rfl, rfl⟩

/-- C10 witness: the bare payload `QUJD` reaches the codec decoded. -/
theorem base64_requires_bare_payload_wit :
    base64_to_pil_image pilProbe ("QUJD".data) =
      pilProbe (b64Quads ("QUJD".data)) :=
  (base64_requires_bare_payload pilProbe ("QUJD".data) (by decide)
    (by decide)).1

/-- C10 counterexample: the payload `AAAA` decodes to three zero bytes,
but prefixed with the data-URI header the same call fails with
`binascii.Error` instead of yielding the same image — the header is not
stripped. -/
theorem base64_data_uri_header_cex :
    base64_to_pil_image pilProbe ("AAAA".data) = .ok ⟨[[0, 0, 0]], [], []⟩ ∧
    base64_to_pil_image pilProbe (dataUriHeader ++ "AAAA".data) =
      .error .binasciiError :=
  ⟨rfl, rfl⟩
